import Mathlib

/-!
Verification of the skip-list based memory allocator (source file
src/unnamed/part_000).  The arena is an Int32Array; we model it as an
`Array Int` addressed by integer quad indices.  Reads outside the array
bounds yield 0 and writes outside the bounds are dropped, mirroring the
JavaScript typed-array convention; all executions covered by the theorems
below stay within bounds, and all stored values stay well inside the
int32 range, so no wrap-around modelling is needed.
-/

set_option maxRecDepth 100000

set_option maxHeartbeats 2000000

namespace Malloc

/-! Constants from the source.  HEADER_SIZE_IN_QUADS = 1 + 2 * MAX_HEIGHT = 65,
FIRST_BLOCK_OFFSET_IN_QUADS = 1 + 65 + 2 = 68. -/

def MAX_HEIGHT : Nat := 32

def HEADER_SIZE_IN_QUADS : Int := 65

def HEADER_OFFSET_IN_QUADS : Int := 1

def HEIGHT_OFFSET_IN_QUADS : Int := 0

def NEXT_OFFSET_IN_QUADS : Int := 2

def POINTER_OVERHEAD_IN_QUADS : Int := 2

def MIN_FREEABLE_SIZE_IN_QUADS : Int := 3

def FIRST_BLOCK_OFFSET_IN_QUADS : Int := 68

def MIN_FREEABLE_SIZE_IN_BYTES : Int := 12

def FIRST_BLOCK_OFFSET_IN_BYTES : Int := 272

/-- Read a 32-bit word of a typed array at a (possibly out of range) index. -/
def rd (A : Array Int) (i : Int) : Int :=
  if 0 ≤ i then A.getD i.toNat 0 else 0

/-- Write a 32-bit word of a typed array; out-of-range writes are dropped. -/
def wr (A : Array Int) (i : Int) (v : Int) : Array Int :=
  if 0 ≤ i then A.setD i.toNat v else A

structure AllocState where
  arena : Array Int
  updates : Array Int
  rng : List Nat
deriving DecidableEq, Repr

/-- Source readSize: absolute value of the head tag at block - 1. -/
def readSize (A : Array Int) (block : Int) : Int :=
  |rd A (block - 1)|

/-- Source isFree: a block inside the header region is never free; otherwise
the sign of the head tag decides. -/
def isFree (A : Array Int) (block : Int) : Bool :=
  if block < HEADER_SIZE_IN_QUADS then false
  else if rd A (block - 1) < 0 then false
  else true

/-- Source quadsToBytes. -/
def quadsToBytes (n : Int) : Int := n * 4

/-- Source bytesToQuads is Math.ceil(n / 4); on integers this is (n + 3) / 4
with flooring division. -/
def bytesToQuads (n : Int) : Int := (n + 3) / 4

/-- Inner loop of findPredecessors at one level.  lvl is height - 1, so the
link slot of a node is node + NEXT_OFFSET_IN_QUADS + lvl.  Fuel exhaustion
(which in the source would be an infinite loop over a corrupted list)
returns none. -/
def fpWalk (A : Array Int) (minimumSize : Int) (lvl : Int) :
    Int → Nat → Option Int
  | _, 0 => none
  | node, fuel + 1 =>
    let nxt := rd A (node + NEXT_OFFSET_IN_QUADS + lvl)
    if FIRST_BLOCK_OFFSET_IN_QUADS ≤ nxt ∧ rd A (nxt - 1) < minimumSize then
      fpWalk A minimumSize lvl nxt fuel
    else
      some node

/-- Levels of findPredecessors, from height h down to 1, threading the current
node and recording it in UPDATES[height - 1]. -/
def fpLevels (A : Array Int) (minimumSize : Int) :
    Nat → Int → Array Int → Option (Array Int)
  | 0, _, U => some U
  | h + 1, node, U =>
    match fpWalk A minimumSize (h : Int) node (A.size + 1) with
    | none => none
    | some node2 => fpLevels A minimumSize h node2 (wr U (h : Int) node2)

/-- Source findPredecessors: populate UPDATES with the last node at each list
level before a node of at least the given size. -/
def findPredecessors (A : Array Int) (U : Array Int) (minimumSize : Int) :
    Option (Array Int) :=
  fpLevels A minimumSize
    (rd A (HEADER_OFFSET_IN_QUADS + HEIGHT_OFFSET_IN_QUADS)).toNat
    HEADER_OFFSET_IN_QUADS U

/-- Inner loop of findFreeBlock at one level. -/
def ffWalk (A : Array Int) (minimumSize : Int) (lvl : Int) :
    Int → Nat → Option Int
  | _, 0 => none
  | node, fuel + 1 =>
    let nxt := rd A (node + NEXT_OFFSET_IN_QUADS + lvl)
    if nxt ≠ HEADER_OFFSET_IN_QUADS ∧ rd A (nxt - 1) < minimumSize then
      ffWalk A minimumSize lvl nxt fuel
    else
      some node

/-- Levels of findFreeBlock, from the list height down to 1. -/
def ffLevels (A : Array Int) (minimumSize : Int) : Nat → Int → Option Int
  | 0, node => some node
  | h + 1, node =>
    match ffWalk A minimumSize (h : Int) node (A.size + 1) with
    | none => none
    | some node2 => ffLevels A minimumSize h node2

/-- Source findFreeBlock: best-fit search; after the descent the result is
the level-0 successor of the final node (the header itself when nothing
fits). -/
def findFreeBlock (A : Array Int) (minimumSize : Int) : Option Int :=
  (ffLevels A minimumSize
      (rd A (HEADER_OFFSET_IN_QUADS + HEIGHT_OFFSET_IN_QUADS)).toNat
      HEADER_OFFSET_IN_QUADS).map
    (fun node => rd A (node + NEXT_OFFSET_IN_QUADS))

/-- Loop of randomHeight: increment while the draw is odd and height < 32. -/
def rhGo : Nat → Nat → Nat → Nat
  | 0, _, h => h
  | fuel + 1, r, h =>
    if r % 2 = 1 ∧ h < MAX_HEIGHT then rhGo fuel (r / 2) (h + 1) else h

/-- Source randomHeight applied to one pseudorandom draw. -/
def randomHeight (r : Nat) : Nat := rhGo MAX_HEIGHT r 1

/-- Source generateHeight: clamp the sampled height to blockSize - 2 when the
payload is too small, and grow the list height by exactly one when the
sampled height exceeds it.  Returns the chosen height together with the
updated arena and UPDATES. -/
def generateHeight (A U : Array Int) (block blockSize : Int) (r : Nat) :
    Int × Array Int × Array Int :=
  let listHeight := rd A (HEADER_OFFSET_IN_QUADS + HEIGHT_OFFSET_IN_QUADS)
  let h0 : Int := (randomHeight r : Nat)
  let height := if blockSize - 1 < h0 + 1 then blockSize - 2 else h0
  if listHeight < height then
    let newHeight := listHeight + 1
    let A1 := wr A (HEADER_OFFSET_IN_QUADS + HEIGHT_OFFSET_IN_QUADS) newHeight
    let A2 := wr A1 (HEADER_OFFSET_IN_QUADS + NEXT_OFFSET_IN_QUADS + (newHeight - 1))
        HEADER_OFFSET_IN_QUADS
    let U1 := wr U newHeight HEADER_OFFSET_IN_QUADS
    let A3 := wr A2 (block + HEIGHT_OFFSET_IN_QUADS) newHeight
    (newHeight, A3, U1)
  else
    (height, wr A (block + HEIGHT_OFFSET_IN_QUADS) height, U)

/-- Link phase of insert: for height = 1 .. blockHeight, splice the block in
after UPDATES[height - 1] and reset that scratch slot to the header. -/
def insLinks (block : Int) : Nat → Int → Array Int → Array Int →
    Array Int × Array Int
  | 0, _, A, U => (A, U)
  | n + 1, h, A, U =>
    let update := rd U (h - 1) + NEXT_OFFSET_IN_QUADS + (h - 1)
    let A1 := wr A (block + NEXT_OFFSET_IN_QUADS + (h - 1)) (rd A update)
    let A2 := wr A1 update block
    let U1 := wr U (h - 1) HEADER_OFFSET_IN_QUADS
    insLinks block n (h + 1) A2 U1

/-- Source insert: find predecessors, generate a height, link the block at
levels 1 .. blockHeight and finally write the positive boundary tags.
Returns the number of quads freed (its blockSize argument). -/
def insert (A U : Array Int) (rng : List Nat) (block blockSize : Int) :
    Option (Int × Array Int × Array Int × List Nat) :=
  match findPredecessors A U blockSize with
  | none => none
  | some U1 =>
    let r := rng.headD 0
    let rng1 := rng.tail
    let g := generateHeight A U1 block blockSize r
    let p := insLinks block g.1.toNat 1 g.2.1 g.2.2
    let A3 := wr p.1 (block - 1) blockSize
    let A4 := wr A3 (block + blockSize) blockSize
    some (blockSize, A4, p.2, rng1)

/-- Scan fix-up of remove: record the node in UPDATES at every level whose
link points at the block being removed (heights nodeHeight - 1 down to 0). -/
def scanFix (A : Array Int) (node block : Int) : Nat → Array Int → Array Int
  | 0, U => U
  | k + 1, U =>
    let U1 := if rd A (node + NEXT_OFFSET_IN_QUADS + (k : Int)) = block
      then wr U (k : Int) node else U
    scanFix A node block k U1

/-- Forward scan of remove along level 0, skipping equal-sized nodes until
the block is reached.  Returns the final node and scratch array. -/
def removeScan (A : Array Int) (block blockSize : Int) :
    Int → Array Int → Nat → Option (Int × Array Int)
  | _, _, 0 => none
  | node, U, fuel + 1 =>
    if node ≠ block ∧ node ≠ HEADER_OFFSET_IN_QUADS ∧
        rd A (node - 1) ≤ blockSize then
      removeScan A block blockSize (rd A (node + NEXT_OFFSET_IN_QUADS))
        (scanFix A node block (rd A (node + HEIGHT_OFFSET_IN_QUADS)).toNat U)
        fuel
    else
      some (node, U)

/-- Unlink loop of remove: for height = 0 while UPDATES[height].NEXT[height]
is the block, bypass it; break at the first level that does not point at the
block. -/
def unlinkGo (block : Int) : Nat → Int → Array Int → Array Int → Array Int
  | 0, _, A, _ => A
  | n + 1, h, A, U =>
    let slot := rd U h + NEXT_OFFSET_IN_QUADS + h
    if rd A slot ≠ block then A
    else unlinkGo block n (h + 1)
      (wr A slot (rd A (block + NEXT_OFFSET_IN_QUADS + h))) U

/-- Height reduction loop of remove: while the top level of the header points
to the header itself, decrement the stored list height. -/
def dropHeight : Nat → Int → Array Int → Array Int
  | 0, _, A => A
  | n + 1, lh, A =>
    if 0 < lh ∧ rd A (HEADER_OFFSET_IN_QUADS + NEXT_OFFSET_IN_QUADS + (lh - 1)) =
        HEADER_OFFSET_IN_QUADS then
      dropHeight n (lh - 1) (wr A (HEADER_OFFSET_IN_QUADS + HEIGHT_OFFSET_IN_QUADS) (lh - 1))
    else A

/-- Source remove: unlink the block from the freelist and mark it allocated
by writing negative boundary tags.  The throw on a block that cannot be
found becomes none. -/
def remove (A U : Array Int) (block blockSize : Int) :
    Option (Array Int × Array Int) :=
  match findPredecessors A U blockSize with
  | none => none
  | some U1 =>
    match removeScan A block blockSize
        (rd A (rd U1 0 + NEXT_OFFSET_IN_QUADS)) U1 (A.size + 1) with
    | none => none
    | some (node, U2) =>
      if node ≠ block then none
      else
        let listHeight := rd A (HEADER_OFFSET_IN_QUADS + HEIGHT_OFFSET_IN_QUADS)
        let A1 := unlinkGo block listHeight.toNat 0 A U2
        let A2 := dropHeight (listHeight.toNat + 1) listHeight A1
        let A3 := wr A2 (block - 1) (-blockSize)
        let A4 := wr A3 (block + blockSize) (-blockSize)
        some (A4, U2)

/-- Source split: remove the whole block, write used tags for the first part
and (transiently negative) tags for the second part, then insert the second
part into the freelist. -/
def split (A U : Array Int) (rng : List Nat) (block firstSize blockSize : Int) :
    Option (Array Int × Array Int × List Nat) :=
  let second := block + firstSize + POINTER_OVERHEAD_IN_QUADS
  let secondSize := blockSize - (second - block)
  match remove A U block blockSize with
  | none => none
  | some (A1, U1) =>
    let A2 := wr A1 (block - 1) (-firstSize)
    let A3 := wr A2 (block + firstSize) (-firstSize)
    let A4 := wr A3 (second - 1) (-secondSize)
    let A5 := wr A4 (second + secondSize) (-secondSize)
    (insert A5 U1 rng second secondSize).map (fun q => (q.2.1, q.2.2.1, q.2.2.2))

/-- Source getFreeBlockBefore. -/
def getFreeBlockBefore (A : Array Int) (block : Int) : Int :=
  if block ≤ FIRST_BLOCK_OFFSET_IN_QUADS then 0
  else
    let beforeSize := rd A (block - POINTER_OVERHEAD_IN_QUADS)
    if beforeSize < POINTER_OVERHEAD_IN_QUADS then 0
    else block - (POINTER_OVERHEAD_IN_QUADS + beforeSize)

/-- Source getFreeBlockAfter. -/
def getFreeBlockAfter (A : Array Int) (block : Int) : Int :=
  let blockSize := readSize A block
  if (A.size : Int) - 2 ≤ block + blockSize + POINTER_OVERHEAD_IN_QUADS then 0
  else
    let nxt := block + blockSize + POINTER_OVERHEAD_IN_QUADS
    let nextSize := rd A (nxt - 1)
    if nextSize < POINTER_OVERHEAD_IN_QUADS then 0
    else nxt

/-- Source insertBefore: coalesce the block with its free right neighbour and
insert the combination; returns the size of the original block. -/
def insertBefore (A U : Array Int) (rng : List Nat) (trailing block blockSize : Int) :
    Option (Int × Array Int × Array Int × List Nat) :=
  let trailingSize := readSize A trailing
  match remove A U trailing trailingSize with
  | none => none
  | some (A1, U1) =>
    let size := blockSize + trailingSize + POINTER_OVERHEAD_IN_QUADS
    let A2 := wr A1 (block - 1) (-size)
    let A3 := wr A2 (trailing + trailingSize) (-size)
    (insert A3 U1 rng block size).map (fun q => (blockSize, q.2.1, q.2.2.1, q.2.2.2))

/-- Source insertMiddle: coalesce the block with both free neighbours. -/
def insertMiddle (A U : Array Int) (rng : List Nat)
    (preceding block blockSize trailing : Int) :
    Option (Int × Array Int × Array Int × List Nat) :=
  let precedingSize := readSize A preceding
  let trailingSize := readSize A trailing
  let size := (trailing - preceding) + trailingSize
  match remove A U preceding precedingSize with
  | none => none
  | some (A1, U1) =>
    match remove A1 U1 trailing trailingSize with
    | none => none
    | some (A2, U2) =>
      let A3 := wr A2 (preceding - 1) (-size)
      let A4 := wr A3 (trailing + trailingSize) (-size)
      (insert A4 U2 rng preceding size).map
        (fun q => (blockSize, q.2.1, q.2.2.1, q.2.2.2))

/-- Source insertAfter: coalesce the block with its free left neighbour. -/
def insertAfter (A U : Array Int) (rng : List Nat) (preceding block blockSize : Int) :
    Option (Int × Array Int × Array Int × List Nat) :=
  let precedingSize := (block - preceding) - POINTER_OVERHEAD_IN_QUADS
  let size := (block - preceding) + blockSize
  match remove A U preceding precedingSize with
  | none => none
  | some (A1, U1) =>
    let A2 := wr A1 (preceding - 1) (-size)
    let A3 := wr A2 (block + blockSize) (-size)
    (insert A3 U1 rng preceding size).map (fun q => (blockSize, q.2.1, q.2.2.1, q.2.2.2))

/-- Error kinds of the public operations: out-of-range argument, invalid
block, internal integrity failure (a throw inside remove), and fuel
exhaustion (an infinite loop over a corrupted arena in the source). -/
inductive AllocErr where
  | rangeErr
  | invalidBlock
  | integrity
  | fuelOut
deriving DecidableEq, Repr

/-- Source alloc.  The byte length of the managed region is 4 * arena.size. -/
def alloc (s : AllocState) (numberOfBytes : Int) :
    Except AllocErr (Int × AllocState) :=
  if numberOfBytes < MIN_FREEABLE_SIZE_IN_BYTES ∨
      4 * (s.arena.size : Int) < numberOfBytes then .error .rangeErr
  else if ¬ (4 ∣ numberOfBytes) then .error .rangeErr
  else
    let minimumSize := bytesToQuads numberOfBytes
    match findFreeBlock s.arena minimumSize with
    | none => .error .fuelOut
    | some block =>
      if block ≤ HEADER_OFFSET_IN_QUADS then .ok (0, s)
      else
        let blockSize := readSize s.arena block
        if MIN_FREEABLE_SIZE_IN_QUADS ≤ blockSize - (minimumSize + POINTER_OVERHEAD_IN_QUADS) then
          match split s.arena s.updates s.rng block minimumSize blockSize with
          | none => .error .integrity
          | some (A, U, rng) => .ok (quadsToBytes block, ⟨A, U, rng⟩)
        else
          match remove s.arena s.updates block blockSize with
          | none => .error .integrity
          | some (A, U) => .ok (quadsToBytes block, ⟨A, U, s.rng⟩)

/-- Source free. -/
def free (s : AllocState) (address : Int) :
    Except AllocErr (Int × AllocState) :=
  if address < FIRST_BLOCK_OFFSET_IN_BYTES ∨
      4 * (s.arena.size : Int) < address then .error .rangeErr
  else if ¬ (4 ∣ address) then .error .rangeErr
  else
    let block := bytesToQuads address
    let blockSize := readSize s.arena block
    if blockSize < MIN_FREEABLE_SIZE_IN_QUADS ∨
        (s.arena.size : Int) - 69 < blockSize then .error .invalidBlock
    else
      let preceding := getFreeBlockBefore s.arena block
      let trailing := getFreeBlockAfter s.arena block
      if preceding ≠ 0 then
        if trailing ≠ 0 then
          match insertMiddle s.arena s.updates s.rng preceding block blockSize trailing with
          | none => .error .integrity
          | some (v, A, U, rng) => .ok (quadsToBytes v, ⟨A, U, rng⟩)
        else
          match insertAfter s.arena s.updates s.rng preceding block blockSize with
          | none => .error .integrity
          | some (v, A, U, rng) => .ok (quadsToBytes v, ⟨A, U, rng⟩)
      else if trailing ≠ 0 then
        match insertBefore s.arena s.updates s.rng trailing block blockSize with
        | none => .error .integrity
        | some (v, A, U, rng) => .ok (quadsToBytes v, ⟨A, U, rng⟩)
      else
        match insert s.arena s.updates s.rng block blockSize with
        | none => .error .integrity
        | some (v, A, U, rng) => .ok (quadsToBytes v, ⟨A, U, rng⟩)

/-- Source sizeOf (named sizeOfBlock here because sizeOf is taken by Lean). -/
def sizeOfBlock (s : AllocState) (address : Int) : Except AllocErr Int :=
  if address < FIRST_BLOCK_OFFSET_IN_BYTES ∨
      4 * (s.arena.size : Int) < address then .error .rangeErr
  else if ¬ (4 ∣ address) then .error .rangeErr
  else .ok (quadsToBytes (readSize s.arena (bytesToQuads address)))

/-- Source verifyHeader. -/
def verifyHeader (A : Array Int) : Bool :=
  rd A (HEADER_OFFSET_IN_QUADS - 1) = HEADER_SIZE_IN_QUADS ∧
  rd A (HEADER_OFFSET_IN_QUADS + HEADER_SIZE_IN_QUADS) = HEADER_SIZE_IN_QUADS

/-- Loop of writeInitialHeader setting NEXT[height] of the header to the
header itself for height = 1 .. 31. -/
def initHeaderLoop : Nat → Array Int → Array Int
  | 0, A => A
  | h + 1, A =>
    initHeaderLoop h
      (wr A (HEADER_OFFSET_IN_QUADS + NEXT_OFFSET_IN_QUADS + ((h + 1 : Nat) : Int))
        HEADER_OFFSET_IN_QUADS)

/-- Source writeInitialHeader for an empty arena. -/
def writeInitialHeader (A : Array Int) : Array Int :=
  let blockSize : Int := (A.size : Int) - 69
  let A1 := wr A (HEADER_OFFSET_IN_QUADS - 1) HEADER_SIZE_IN_QUADS
  let A2 := wr A1 (HEADER_OFFSET_IN_QUADS + HEADER_SIZE_IN_QUADS) HEADER_SIZE_IN_QUADS
  let A3 := wr A2 (HEADER_OFFSET_IN_QUADS + HEIGHT_OFFSET_IN_QUADS) 1
  let A4 := wr A3 (HEADER_OFFSET_IN_QUADS + NEXT_OFFSET_IN_QUADS) FIRST_BLOCK_OFFSET_IN_QUADS
  let A5 := initHeaderLoop 31 A4
  let A6 := wr A5 (FIRST_BLOCK_OFFSET_IN_QUADS - 1) blockSize
  let A7 := wr A6 (FIRST_BLOCK_OFFSET_IN_QUADS + blockSize) blockSize
  let A8 := wr A7 (FIRST_BLOCK_OFFSET_IN_QUADS + HEIGHT_OFFSET_IN_QUADS) 1
  let A9 := wr A8 (FIRST_BLOCK_OFFSET_IN_QUADS + NEXT_OFFSET_IN_QUADS) HEADER_OFFSET_IN_QUADS
  A9

/-- Source prepare. -/
def prepare (A : Array Int) : Array Int :=
  if verifyHeader A then A else writeInitialHeader A

/-- A freshly constructed allocator over a zeroed buffer of n quads, with the
module-level UPDATES scratch in its initial all-header state. -/
def initState (n : Nat) (rng : List Nat) : AllocState :=
  ⟨prepare (Array.mkArray n 0), Array.mkArray MAX_HEIGHT HEADER_OFFSET_IN_QUADS, rng⟩

/-! ## Helper lemmas about the returned values of the insertion family -/

/-- Run one alloc call and keep the new state (state kept unchanged on error). -/
def stepAlloc (s : AllocState) (n : Int) : AllocState :=
  match alloc s n with
  | .ok p => p.2
  | .error _ => s

/-- Run one free call and keep the new state (state kept unchanged on error). -/
def stepFree (s : AllocState) (a : Int) : AllocState :=
  match free s a with
  | .ok p => p.2
  | .error _ => s

/-- State reached from a fresh 200-quad arena by three alloc(16) calls, with
the height draw for the pending free call equal to 1 (randomHeight 1 = 2). -/
def c9base : AllocState :=
  stepAlloc (stepAlloc (stepAlloc (initState 200 [0, 0, 0, 1]) 16) 16) 16

/-- The same state with a different prior content of the UPDATES scratch at
level index 1, a level that the next free call consumes without overwriting. -/
def c9alt : AllocState :=
  { c9base with updates := c9base.updates.setD 1 50 }

/-- Repeatedly call alloc(16), collecting the nonzero returned byte offsets
until alloc returns 0; none on fuel exhaustion or error. -/
def exhaustGo : AllocState → Nat → Option (List Int × AllocState)
  | _, 0 => none
  | s, fuel + 1 =>
    match alloc s 16 with
    | .error _ => none
    | .ok (v, s2) =>
      if v = 0 then some ([], s2)
      else (exhaustGo s2 fuel).map (fun p => (v :: p.1, p.2))

/-- The byte offsets returned by the m successful allocations starting at
block number k of the exhaust-16 scenario. -/
def exhaustAddrsGo : Nat → Nat → List Int
  | _, 0 => []
  | k, m + 1 => quadsToBytes (68 + 6 * (k : Int)) :: exhaustAddrsGo (k + 1) m

/-- Walk the freelist links at a given level starting from a node address,
collecting the nodes visited until the header is reached. -/
def chainFrom (A : Array Int) (lvl : Int) : Int → Nat → Option (List Int)
  | _, 0 => none
  | b, fuel + 1 =>
    if b = HEADER_OFFSET_IN_QUADS then some []
    else match chainFrom A lvl (rd A (b + NEXT_OFFSET_IN_QUADS + lvl)) fuel with
      | none => none
      | some l => some (b :: l)

/-- The freelist at a given level, starting from the header entry pointer. -/
def levelChain (A : Array Int) (lvl : Int) : Option (List Int) :=
  chainFrom A lvl (rd A (HEADER_OFFSET_IN_QUADS + NEXT_OFFSET_IN_QUADS + lvl))
    (A.size + 1)

/-- State of the best-fit descent after processing down to level 0: the next
level-0 link of the final node either is the header or points at a node of
sufficient size, and the remaining level-0 chain is available. -/
def ZeroPost (A : Array Int) (min : Int) (c : List Int) (node : Int) : Prop :=
  ∃ (f1 : Nat) (l1 : List Int),
    chainFrom A ((0 : Nat) : Int)
      (rd A (node + NEXT_OFFSET_IN_QUADS + ((0 : Nat) : Int))) f1 = some l1 ∧
    l1.Sublist c ∧
    (rd A (node + NEXT_OFFSET_IN_QUADS + ((0 : Nat) : Int)) = HEADER_OFFSET_IN_QUADS ∨
      ¬ rd A (rd A (node + NEXT_OFFSET_IN_QUADS + ((0 : Nat) : Int)) - 1) < min)

/-- Invariants of the size-ordered skip-list freelist used by the best-fit
search: c is the level-0 chain; every level chain is a sublist of it; members
lie inside the block region with positive (free) head tags; sizes are
non-decreasing along the chain. -/
structure FreelistInv (A : Array Int) (c : List Int) : Prop where
  chain_zero : levelChain A 0 = some c
  zero_empty : (rd A 1).toNat = 0 → c = []
  chain_len : c.length ≤ A.size
  chains : ∀ lvl : Nat, lvl < (rd A 1).toNat →
    ∃ ch, levelChain A (lvl : Int) = some ch ∧ ch.Sublist c
  chain_step : ∀ lvl : Nat, lvl + 1 < (rd A 1).toNat → ∀ ch1 ch2,
    levelChain A ((lvl + 1 : Nat) : Int) = some ch1 →
    levelChain A ((lvl : Nat) : Int) = some ch2 → ch1.Sublist ch2
  mem_lb : ∀ b ∈ c, FIRST_BLOCK_OFFSET_IN_QUADS ≤ b
  mem_ub : ∀ b ∈ c, b < (A.size : Int)
  pos : ∀ b ∈ c, 0 < rd A (b - 1)
  sorted : List.Chain' (fun x y => rd A (x - 1) ≤ rd A (y - 1)) c

def removeLH (A U : Array Int) (block blockSize : Int) : Int :=
  rd ((remove A U block blockSize).getD (A, U)).1
    (HEADER_OFFSET_IN_QUADS + HEIGHT_OFFSET_IN_QUADS)

/-- The UPDATES array produced by the findPredecessors call that the insert
inside split performs (header scratch when any step fails). -/
def splitFP (A U : Array Int) (block M S : Int) : Array Int :=
  let p := (remove A U block S).getD (A, U)
  let second := block + M + POINTER_OVERHEAD_IN_QUADS
  let secondSize := S - (second - block)
  let A5 := wr (wr (wr (wr p.1 (block - 1) (-M)) (block + M) (-M))
    (second - 1) (-secondSize)) (second + secondSize) (-secondSize)
  (findPredecessors A5 p.2 secondSize).getD (Array.mkArray MAX_HEIGHT HEADER_OFFSET_IN_QUADS)

def c1run : Int × AllocState :=
  (alloc (initState 80 []) 16).toOption.getD (0, initState 80 [])

theorem size_wr (A : Array Int) (i v : Int) : (wr A i v).size = A.size := by
  unfold wr
  split
  · exact Array.size_setD A i.toNat v
  · rfl

theorem rd_wr (A : Array Int) (i v j : Int) :
    rd (wr A i v) j = if i = j ∧ 0 ≤ i ∧ i < (A.size : Int) then v else rd A j := by
  by_cases h0 : 0 ≤ i
  · have hw : wr A i v = if h : i.toNat < A.size then A.set ⟨i.toNat, h⟩ v else A := by
      unfold wr Array.setD
      rw [if_pos h0]
    by_cases hsz : i.toNat < A.size
    · rw [hw, dif_pos hsz]
      by_cases hij : i = j
      · subst hij
        have hc : i = i ∧ 0 ≤ i ∧ i < (A.size : Int) := ⟨rfl, h0, by omega⟩
        rw [if_pos hc]
        unfold rd
        rw [if_pos h0]
        unfold Array.getD
        have hsz2 : i.toNat < (A.set ⟨i.toNat, hsz⟩ v).size := by
          simpa using hsz
        rw [dif_pos hsz2]
        simp only [Array.get_eq_getElem]
        exact Array.get_set_eq A ⟨i.toNat, hsz⟩ v
      · have hc : ¬ (i = j ∧ 0 ≤ i ∧ i < (A.size : Int)) := by
          intro hh
          exact hij hh.1
        rw [if_neg hc]
        unfold rd
        by_cases hj : 0 ≤ j
        · rw [if_pos hj, if_pos hj]
          unfold Array.getD
          have hne : i.toNat ≠ j.toNat := by omega
          by_cases hjs : j.toNat < A.size
          · have hjs2 : j.toNat < (A.set ⟨i.toNat, hsz⟩ v).size := by
              simpa using hjs
            rw [dif_pos hjs2, dif_pos hjs]
            simp only [Array.get_eq_getElem]
            exact Array.get_set_ne A ⟨i.toNat, hsz⟩ v hjs hne
          · have hjs2 : ¬ j.toNat < (A.set ⟨i.toNat, hsz⟩ v).size := by
              simpa using hjs
            rw [dif_neg hjs2, dif_neg hjs]
        · rw [if_neg hj, if_neg hj]
    · have hc : ¬ (i = j ∧ 0 ≤ i ∧ i < (A.size : Int)) := by
        intro hh
        omega
      rw [hw, dif_neg hsz, if_neg hc]
  · have hw : wr A i v = A := by
      unfold wr
      rw [if_neg h0]
    have hc : ¬ (i = j ∧ 0 ≤ i ∧ i < (A.size : Int)) := by
      intro hh
      exact h0 hh.2.1
    rw [hw, if_neg hc]

theorem rd_wr_ne (A : Array Int) (i v j : Int) (h : i ≠ j) :
    rd (wr A i v) j = rd A j := by
  rw [rd_wr]
  simp [h]

theorem rd_wr_eq (A : Array Int) (i v : Int) (h0 : 0 ≤ i)
    (h1 : i < (A.size : Int)) : rd (wr A i v) i = v := by
  rw [rd_wr]
  simp [h0, h1]

theorem rd_oob (A : Array Int) (i : Int) (h : ¬ (0 ≤ i ∧ i < (A.size : Int))) :
    rd A i = 0 := by
  unfold rd Array.getD
  by_cases h0 : 0 ≤ i
  · have : ¬ i.toNat < A.size := by omega
    simp [h0, this]
  · simp [h0]

/-! The allocator state: the arena, the (module level) UPDATES scratch array
and the stream of pseudorandom draws consumed by randomHeight.  Each call to
randomHeight consumes the head of the stream; an exhausted stream yields 0
(height 1), which is harmless since every claim quantifies over all streams. -/

theorem insert_val (A U : Array Int) (rng : List Nat) (block blockSize : Int)
    (q : Int × Array Int × Array Int × List Nat)
    (h : insert A U rng block blockSize = some q) : q.1 = blockSize := by
  unfold insert at h
  split at h
  · exact absurd h (by simp)
  · simp only [Option.some.injEq] at h
    rw [← h]

theorem insertBefore_val (A U : Array Int) (rng : List Nat)
    (trailing block blockSize : Int) (q : Int × Array Int × Array Int × List Nat)
    (h : insertBefore A U rng trailing block blockSize = some q) : q.1 = blockSize := by
  unfold insertBefore at h
  simp only [] at h
  split at h
  · exact absurd h (by simp)
  · rw [Option.map_eq_some'] at h
    obtain ⟨q0, _, hq⟩ := h
    rw [← hq]

theorem insertAfter_val (A U : Array Int) (rng : List Nat)
    (preceding block blockSize : Int) (q : Int × Array Int × Array Int × List Nat)
    (h : insertAfter A U rng preceding block blockSize = some q) : q.1 = blockSize := by
  unfold insertAfter at h
  simp only [] at h
  split at h
  · exact absurd h (by simp)
  · rw [Option.map_eq_some'] at h
    obtain ⟨q0, _, hq⟩ := h
    rw [← hq]

theorem insertMiddle_val (A U : Array Int) (rng : List Nat)
    (preceding block blockSize trailing : Int)
    (q : Int × Array Int × Array Int × List Nat)
    (h : insertMiddle A U rng preceding block blockSize trailing = some q) :
    q.1 = blockSize := by
  unfold insertMiddle at h
  simp only [] at h
  split at h
  · exact absurd h (by simp)
  · split at h
    · exact absurd h (by simp)
    · rw [Option.map_eq_some'] at h
      obtain ⟨q0, _, hq⟩ := h
      rw [← hq]

/-- Core fact behind C4: whenever free succeeds, the returned byte count is
four times the size read from the head tag of the freed block itself, in
every one of the four neighbour branches. -/
theorem free_val (s : AllocState) (address v : Int) (s2 : AllocState)
    (h : free s address = .ok (v, s2)) :
    v = quadsToBytes (readSize s.arena (bytesToQuads address)) := by
  unfold free at h
  simp only [] at h
  split at h
  · exact absurd h (by simp)
  · split at h
    · exact absurd h (by simp)
    · split at h
      · exact absurd h (by simp)
      · split at h
        · split at h
          · split at h
            · exact absurd h (by simp)
            · rename_i q hq
              simp only [Except.ok.injEq, Prod.mk.injEq] at h
              rw [← h.1]
              exact congrArg quadsToBytes (insertMiddle_val _ _ _ _ _ _ _ _ hq)
          · split at h
            · exact absurd h (by simp)
            · rename_i q hq
              simp only [Except.ok.injEq, Prod.mk.injEq] at h
              rw [← h.1]
              exact congrArg quadsToBytes (insertAfter_val _ _ _ _ _ _ _ hq)
        · split at h
          · split at h
            · exact absurd h (by simp)
            · rename_i q hq
              simp only [Except.ok.injEq, Prod.mk.injEq] at h
              rw [← h.1]
              exact congrArg quadsToBytes (insertBefore_val _ _ _ _ _ _ _ hq)
          · split at h
            · exact absurd h (by simp)
            · rename_i q hq
              simp only [Except.ok.injEq, Prod.mk.injEq] at h
              rw [← h.1]
              exact congrArg quadsToBytes (insert_val _ _ _ _ _ _ hq)

/-- C4: for every valid call free(addr) on a used block whose payload size is
S quads, the returned value equals S * 4 bytes, the size of the originally
freed block before coalescing, in all four neighbour cases; the theorem is
universal over arbitrary states and addresses and therefore covers the
no-free-neighbour, left-only, right-only and both-neighbour branches of the
source at once. -/
theorem freed_bytes_equal_original_size (s : AllocState) (address : Int)
    (h : (free s address).isOk = true) :
    (free s address).toOption.map Prod.fst =
      some (quadsToBytes (readSize s.arena (bytesToQuads address))) := by
  cases hf : free s address with
  | error e =>
    rw [hf] at h
    simp [Except.isOk, Except.toBool] at h
  | ok p =>
    obtain ⟨v, s2⟩ := p
    simp only [Except.toOption, Option.map_some']
    exact congrArg some (free_val s address v s2 hf)

/-- C4 witness: freeing the first of two allocated blocks and then the second
(which coalesces with its now-free left neighbour) returns the pre-coalesce
size of the second block, 20 bytes. -/
theorem freed_bytes_equal_original_size_witness :
    ((free (stepFree (stepAlloc (stepAlloc (initState 80 []) 16) 16) 272) 296).isOk = true)
    ∧ (free (stepFree (stepAlloc (stepAlloc (initState 80 []) 16) 16) 272) 296).toOption.map
        Prod.fst =
      some (quadsToBytes (readSize
        (stepFree (stepAlloc (stepAlloc (initState 80 []) 16) 16) 272).arena
        (bytesToQuads 296))) :=
  ⟨by decide, freed_bytes_equal_original_size _ 296 (by decide)⟩

/-- C6 counterexample: on a fresh 80-quad arena the address 272 passes range
and alignment validation and points at a block that is already free (head tag
positive), yet free raises no invalid-block error; it succeeds, re-inserting
the block.  This contradicts the claim that a positive free-bit triggers an
invalid-block error. -/
theorem free_accepts_already_free_block :
    isFree (initState 80 []).arena (bytesToQuads 272) = true ∧
    FIRST_BLOCK_OFFSET_IN_BYTES ≤ 272 ∧
    (272 : Int) ≤ 4 * ((initState 80 []).arena.size : Int) ∧
    (4 : Int) ∣ 272 ∧
    (free (initState 80 []) 272).isOk = true := by decide

/-- C6 amended: if the address passes range and alignment validation and the
size tag is absurd (magnitude below MIN_FREEABLE_SIZE_IN_QUADS or above the
arena capacity in quads minus 69), free raises the invalid-block error; the
check precedes every write, so the arena is not modified.  An already-free
block with a plausible size tag is not detected. -/
theorem free_invalid_size_raises (s : AllocState) (address : Int)
    (hlo : FIRST_BLOCK_OFFSET_IN_BYTES ≤ address)
    (hhi : address ≤ 4 * (s.arena.size : Int))
    (hal : (4 : Int) ∣ address)
    (habs : readSize s.arena (bytesToQuads address) < MIN_FREEABLE_SIZE_IN_QUADS ∨
      (s.arena.size : Int) - 69 < readSize s.arena (bytesToQuads address)) :
    free s address = .error .invalidBlock := by
  have hc1 : ¬ (address < FIRST_BLOCK_OFFSET_IN_BYTES ∨
      4 * (s.arena.size : Int) < address) := by
    push_neg
    exact ⟨hlo, hhi⟩
  simp only [free]
  rw [if_neg hc1, if_neg (not_not_intro hal), if_pos habs]

/-- C6 amended witness: address 276 on a fresh 80-quad arena points into the
payload of the initial free block, where the size tag reads as 1 quad. -/
theorem free_invalid_size_raises_witness :
    (FIRST_BLOCK_OFFSET_IN_BYTES ≤ (276 : Int) ∧
      (276 : Int) ≤ 4 * ((initState 80 []).arena.size : Int) ∧
      (4 : Int) ∣ 276 ∧
      readSize (initState 80 []).arena (bytesToQuads 276) < MIN_FREEABLE_SIZE_IN_QUADS) ∧
    free (initState 80 []) 276 = .error .invalidBlock :=
  ⟨by decide, free_invalid_size_raises (initState 80 []) 276 (by decide) (by decide)
    (by decide) (Or.inl (by decide))⟩

/-- C9: two runs of free(272) from identical arena contents and identical
pseudorandom streams, differing only in the prior contents of the UPDATES
scratch array, return the same value but produce different final arenas: the
growth path of insert reads UPDATES[listHeight] without first overwriting it,
so the scratch carries information into the arena. -/
theorem updates_scratch_leaks :
    c9alt.arena = c9base.arena ∧ c9alt.rng = c9base.rng ∧
    (free c9base 272).toOption.map Prod.fst = some 16 ∧
    (free c9alt 272).toOption.map Prod.fst = some 16 ∧
    (free c9base 272).toOption.map (fun p => p.2.arena) ≠
      (free c9alt 272).toOption.map (fun p => p.2.arena) := by decide

theorem rhGo_ge (fuel r h : Nat) : h ≤ rhGo fuel r h := by
  induction fuel generalizing r h with
  | zero => simp [rhGo]
  | succ n ih =>
    rw [rhGo]
    split
    · exact le_trans (Nat.le_succ h) (ih (r / 2) (h + 1))
    · exact le_refl h

theorem randomHeight_pos (r : Nat) : 1 ≤ randomHeight r := rhGo_ge MAX_HEIGHT r 1

theorem ffWalk_stop (A : Array Int) (min lvl node : Int) (fuel : Nat)
    (hstop : ¬ (rd A (node + NEXT_OFFSET_IN_QUADS + lvl) ≠ HEADER_OFFSET_IN_QUADS ∧
      rd A (rd A (node + NEXT_OFFSET_IN_QUADS + lvl) - 1) < min)) :
    ffWalk A min lvl node (fuel + 1) = some node := by
  rw [ffWalk]
  exact if_neg hstop

theorem findFreeBlock_eval (A : Array Int) (min F : Int)
    (h1 : rd A 1 = 1) (h3 : rd A 3 = F)
    (hstop : ¬ (F ≠ 1 ∧ rd A (F - 1) < min)) :
    findFreeBlock A min = some F := by
  unfold findFreeBlock
  simp only [HEADER_OFFSET_IN_QUADS, HEIGHT_OFFSET_IN_QUADS, NEXT_OFFSET_IN_QUADS]
  norm_num [h1]
  refine ⟨1, ?_, by norm_num [h3]⟩
  rw [show ffLevels A min 1 1 = (match ffWalk A min ((0 : Nat) : Int) 1 (A.size + 1) with
    | none => none
    | some node2 => ffLevels A min 0 node2) from rfl]
  have hw : ffWalk A min ((0 : Nat) : Int) 1 (A.size + 1) = some 1 := by
    apply ffWalk_stop
    simp only [HEADER_OFFSET_IN_QUADS, NEXT_OFFSET_IN_QUADS]
    norm_num [h3]
    intro hne
    rcases not_and_or.mp hstop with hc | hc
    · exact absurd hne (by simpa using hc)
    · simpa using hc
  rw [hw]
  rfl

theorem fpWalk_stop (A : Array Int) (min lvl node : Int) (fuel : Nat)
    (hstop : ¬ (FIRST_BLOCK_OFFSET_IN_QUADS ≤ rd A (node + NEXT_OFFSET_IN_QUADS + lvl) ∧
      rd A (rd A (node + NEXT_OFFSET_IN_QUADS + lvl) - 1) < min)) :
    fpWalk A min lvl node (fuel + 1) = some node := by
  rw [fpWalk]
  exact if_neg hstop

theorem findPredecessors_single (A U : Array Int) (F S : Int)
    (h1 : rd A 1 = 1) (h3 : rd A 3 = F) (hS : rd A (F - 1) = S) :
    findPredecessors A U S = some (wr U 0 1) := by
  unfold findPredecessors
  simp only [HEADER_OFFSET_IN_QUADS, HEIGHT_OFFSET_IN_QUADS]
  norm_num [h1]
  rw [show fpLevels A S 1 1 U = (match fpWalk A S ((0 : Nat) : Int) 1 (A.size + 1) with
    | none => none
    | some node2 => fpLevels A S 0 node2 (wr U ((0 : Nat) : Int) node2)) from rfl]
  have hw : fpWalk A S ((0 : Nat) : Int) 1 (A.size + 1) = some 1 := by
    apply fpWalk_stop
    simp only [FIRST_BLOCK_OFFSET_IN_QUADS, NEXT_OFFSET_IN_QUADS]
    norm_num [h3, hS]
  rw [hw]
  norm_num [fpLevels]

theorem remove_single (A U : Array Int) (F S : Int)
    (hA : A.size = 1024) (h1 : rd A 1 = 1) (h3 : rd A 3 = F) (hS : rd A (F - 1) = S)
    (hF2 : rd A (F + 2) = 1) (hF : 68 ≤ F) (hU : U.size = 32) :
    remove A U F S =
      some (wr (wr (wr (wr A 3 1) 1 0) (F - 1) (-S)) (F + S) (-S), wr U 0 1) := by
  have hrdU : rd (wr U 0 1) 0 = 1 := by
    apply rd_wr_eq
    · norm_num
    · rw [hU]
      norm_num
  have hscan : removeScan A F S F (wr U 0 1) (A.size + 1) = some (F, wr U 0 1) := by
    rw [removeScan]
    rw [if_neg (by simp)]
  have hunl : unlinkGo F 1 0 A (wr U 0 1) = wr A 3 1 := by
    rw [unlinkGo]
    simp only [NEXT_OFFSET_IN_QUADS, hrdU]
    norm_num [h3, hF2]
    rfl
  have hdrop : dropHeight 2 1 (wr A 3 1) = wr (wr A 3 1) 1 0 := by
    rw [dropHeight]
    rw [if_pos]
    · rw [show ((1 : Int) - 1 = 0) from rfl]
      rw [dropHeight]
      rw [if_neg (by norm_num)]
      norm_num [HEADER_OFFSET_IN_QUADS, HEIGHT_OFFSET_IN_QUADS]
    · constructor
      · norm_num
      · simp only [HEADER_OFFSET_IN_QUADS, NEXT_OFFSET_IN_QUADS]
        norm_num
        apply rd_wr_eq
        · norm_num
        · rw [hA]
          norm_num
  unfold remove
  rw [findPredecessors_single A U F S h1 h3 hS]
  simp only [hrdU, NEXT_OFFSET_IN_QUADS, HEADER_OFFSET_IN_QUADS, HEIGHT_OFFSET_IN_QUADS]
  norm_num [h3, h1, hscan]
  rw [hunl, hdrop]

theorem alloc_whole_step (A U : Array Int) (rng : List Nat) (F S : Int)
    (hA : A.size = 1024) (h1 : rd A 1 = 1) (h3 : rd A 3 = F) (hS : rd A (F - 1) = S)
    (hF2 : rd A (F + 2) = 1) (hF : 68 ≤ F) (hU : U.size = 32)
    (hS4 : 4 ≤ S) (hS8 : S ≤ 8) :
    alloc ⟨A, U, rng⟩ 16 =
      .ok (quadsToBytes F,
        ⟨wr (wr (wr (wr A 3 1) 1 0) (F - 1) (-S)) (F + S) (-S), wr U 0 1, rng⟩) := by
  have hffb : findFreeBlock A 4 = some F := by
    apply findFreeBlock_eval A 4 F h1 h3
    intro hc
    rw [hS] at hc
    omega
  unfold alloc
  dsimp only
  rw [if_neg (by
    simp only [MIN_FREEABLE_SIZE_IN_BYTES]
    omega)]
  rw [if_neg (by norm_num)]
  rw [show bytesToQuads 16 = 4 from rfl]
  rw [hffb]
  dsimp only
  simp only [HEADER_OFFSET_IN_QUADS]
  rw [if_neg (by omega)]
  have hrs : readSize A F = S := by
    unfold readSize
    rw [hS]
    exact abs_of_nonneg (by omega)
  rw [hrs]
  rw [if_neg (by
    simp only [MIN_FREEABLE_SIZE_IN_QUADS, POINTER_OVERHEAD_IN_QUADS]
    omega)]
  rw [remove_single A U F S hA h1 h3 hS hF2 hF hU]

theorem findPredecessors_zero (A U : Array Int) (minSize : Int)
    (h1 : rd A 1 = 0) :
    findPredecessors A U minSize = some U := by
  unfold findPredecessors
  simp only [HEADER_OFFSET_IN_QUADS, HEIGHT_OFFSET_IN_QUADS]
  norm_num [h1]
  rfl

theorem generateHeight_growzero (A U : Array Int) (block blockSize : Int) (r : Nat)
    (h1 : rd A 1 = 0) (hbs : 3 ≤ blockSize) :
    generateHeight A U block blockSize r =
      (1, wr (wr (wr A 1 1) 3 1) block 1, wr U 1 1) := by
  unfold generateHeight
  simp only [HEADER_OFFSET_IN_QUADS, HEIGHT_OFFSET_IN_QUADS, NEXT_OFFSET_IN_QUADS]
  norm_num [h1]
  have hrh : (1 : Int) ≤ ((randomHeight r : Nat) : Int) := by
    exact_mod_cast randomHeight_pos r
  by_cases hcl : blockSize - 1 < ((randomHeight r : Nat) : Int) + 1
  · rw [if_pos hcl]
    intro hle
    exact absurd hle (by omega)
  · rw [if_neg hcl]
    intro hle
    exact absurd hle (by omega)

theorem insert_growzero (A U : Array Int) (rng : List Nat) (block blockSize : Int)
    (hA : A.size = 1024) (h1 : rd A 1 = 0) (hU : U.size = 32) (hU0 : rd U 0 = 1)
    (hb : 68 ≤ block) (hbs : 3 ≤ blockSize) :
    insert A U rng block blockSize =
      some (blockSize,
        wr (wr (wr (wr (wr (wr (wr A 1 1) 3 1) block 1) (block + 2) 1) 3 block)
          (block - 1) blockSize) (block + blockSize) blockSize,
        wr (wr U 1 1) 0 1, rng.tail) := by
  unfold insert
  rw [findPredecessors_zero A U blockSize h1]
  dsimp only
  rw [generateHeight_growzero A U block blockSize (rng.headD 0) h1 hbs]
  dsimp only
  have hU30 : rd (wr U 1 1) 0 = 1 := by
    rw [rd_wr_ne _ _ _ _ (by norm_num)]
    exact hU0
  have hlinks : insLinks block (1 : Int).toNat 1 (wr (wr (wr A 1 1) 3 1) block 1) (wr U 1 1) =
      (wr (wr (wr (wr (wr A 1 1) 3 1) block 1) (block + 2) 1) 3 block, wr (wr U 1 1) 0 1) := by
    rw [show ((1 : Int).toNat = 1) from rfl]
    rw [insLinks]
    simp only [NEXT_OFFSET_IN_QUADS, HEADER_OFFSET_IN_QUADS]
    norm_num [hU30]
    have hrd3 : rd (wr (wr (wr A 1 1) 3 1) block 1) 3 = 1 := by
      rw [rd_wr_ne _ _ _ _ (by omega)]
      apply rd_wr_eq
      · norm_num
      · rw [size_wr, hA]
        norm_num
    rw [hrd3]
    rfl
  rw [hlinks]

theorem alloc_split_step (A U : Array Int) (rng : List Nat) (F S : Int)
    (hA : A.size = 1024) (h1 : rd A 1 = 1) (h3 : rd A 3 = F) (hS : rd A (F - 1) = S)
    (hF2 : rd A (F + 2) = 1) (hF : 68 ≤ F) (hU : U.size = 32)
    (hFS : F + S = 1023) (h9 : 9 ≤ S) :
    ∃ A2 U2,
      alloc ⟨A, U, rng⟩ 16 = .ok (quadsToBytes F, ⟨A2, U2, rng.tail⟩) ∧
      A2.size = 1024 ∧ U2.size = 32 ∧ rd A2 1 = 1 ∧ rd A2 3 = F + 6 ∧
      rd A2 (F + 5) = S - 6 ∧ rd A2 (F + 8) = 1 ∧
      rd A2 (F - 1) = -4 ∧ rd A2 (F + 4) = -4 ∧
      (∀ j : Int, j ≠ 1 → j ≠ 3 → j < F - 1 → rd A2 j = rd A j) := by
  have hffb : findFreeBlock A 4 = some F := by
    apply findFreeBlock_eval A 4 F h1 h3
    intro hc
    rw [hS] at hc
    omega
  have hrs : readSize A F = S := by
    unfold readSize
    rw [hS]
    exact abs_of_nonneg (by omega)
  -- the arena handed to the insertion of the second half
  have hA5sz : (wr (wr (wr (wr (wr (wr (wr (wr A 3 1) 1 0) (F - 1) (-S)) (F + S) (-S))
      (F - 1) (-4)) (F + 4) (-4)) (F + 4 + 2 - 1) (-(S - (F + 4 + 2 - F))))
      (F + 4 + 2 + (S - (F + 4 + 2 - F))) (-(S - (F + 4 + 2 - F)))).size = 1024 := by
    simp only [size_wr]
    exact hA
  have h15 : rd (wr (wr (wr (wr (wr (wr (wr (wr A 3 1) 1 0) (F - 1) (-S)) (F + S) (-S))
      (F - 1) (-4)) (F + 4) (-4)) (F + 4 + 2 - 1) (-(S - (F + 4 + 2 - F))))
      (F + 4 + 2 + (S - (F + 4 + 2 - F))) (-(S - (F + 4 + 2 - F)))) 1 = 0 := by
    rw [rd_wr_ne _ _ _ _ (by omega), rd_wr_ne _ _ _ _ (by omega),
      rd_wr_ne _ _ _ _ (by omega), rd_wr_ne _ _ _ _ (by omega),
      rd_wr_ne _ _ _ _ (by omega), rd_wr_ne _ _ _ _ (by omega)]
    exact rd_wr_eq _ _ _ (by norm_num) (by simp only [size_wr, hA]; norm_num)
  have hU10 : rd (wr U 0 1) 0 = 1 :=
    rd_wr_eq _ _ _ (by norm_num) (by rw [hU]; norm_num)
  have hU1sz : (wr U 0 1).size = 32 := by
    rw [size_wr]
    exact hU
  have hsp : split A U rng F 4 S =
      some (wr (wr (wr (wr (wr (wr (wr
          (wr (wr (wr (wr (wr (wr (wr (wr A 3 1) 1 0) (F - 1) (-S)) (F + S) (-S))
            (F - 1) (-4)) (F + 4) (-4)) (F + 4 + 2 - 1) (-(S - (F + 4 + 2 - F))))
            (F + 4 + 2 + (S - (F + 4 + 2 - F))) (-(S - (F + 4 + 2 - F))))
          1 1) 3 1) (F + 4 + 2) 1) (F + 4 + 2 + 2) 1) 3 (F + 4 + 2))
          (F + 4 + 2 - 1) (S - (F + 4 + 2 - F)))
          (F + 4 + 2 + (S - (F + 4 + 2 - F))) (S - (F + 4 + 2 - F)),
        wr (wr (wr U 0 1) 1 1) 0 1, rng.tail) := by
    unfold split
    dsimp only
    rw [remove_single A U F S hA h1 h3 hS hF2 hF hU]
    dsimp only
    simp only [POINTER_OVERHEAD_IN_QUADS]
    rw [insert_growzero _ _ rng (F + 4 + 2) (S - (F + 4 + 2 - F)) hA5sz h15 hU1sz hU10
      (by omega) (by omega)]
    rfl
  have halloc : alloc ⟨A, U, rng⟩ 16 = .ok (quadsToBytes F,
      ⟨wr (wr (wr (wr (wr (wr (wr
          (wr (wr (wr (wr (wr (wr (wr (wr A 3 1) 1 0) (F - 1) (-S)) (F + S) (-S))
            (F - 1) (-4)) (F + 4) (-4)) (F + 4 + 2 - 1) (-(S - (F + 4 + 2 - F))))
            (F + 4 + 2 + (S - (F + 4 + 2 - F))) (-(S - (F + 4 + 2 - F))))
          1 1) 3 1) (F + 4 + 2) 1) (F + 4 + 2 + 2) 1) 3 (F + 4 + 2))
          (F + 4 + 2 - 1) (S - (F + 4 + 2 - F)))
          (F + 4 + 2 + (S - (F + 4 + 2 - F))) (S - (F + 4 + 2 - F)),
        wr (wr (wr U 0 1) 1 1) 0 1, rng.tail⟩) := by
    unfold alloc
    dsimp only
    rw [if_neg (by
      simp only [MIN_FREEABLE_SIZE_IN_BYTES]
      omega)]
    rw [if_neg (by norm_num)]
    rw [show bytesToQuads 16 = 4 from rfl]
    rw [hffb]
    dsimp only
    simp only [HEADER_OFFSET_IN_QUADS]
    rw [if_neg (by omega)]
    rw [hrs]
    rw [if_pos (by
      simp only [MIN_FREEABLE_SIZE_IN_QUADS, POINTER_OVERHEAD_IN_QUADS]
      omega)]
    rw [hsp]
  refine ⟨_, _, halloc, ?_, ?_, ?_, ?_, ?_, ?_, ?_, ?_, ?_⟩
  · simp only [size_wr]
    exact hA
  · simp only [size_wr]
    exact hU
  · rw [rd_wr_ne _ _ _ _ (by omega), rd_wr_ne _ _ _ _ (by omega),
      rd_wr_ne _ _ _ _ (by omega), rd_wr_ne _ _ _ _ (by omega),
      rd_wr_ne _ _ _ _ (by omega), rd_wr_ne _ _ _ _ (by omega)]
    exact rd_wr_eq _ _ _ (by norm_num) (by simp only [size_wr, hA]; norm_num)
  · rw [rd_wr_ne _ _ _ _ (by omega), rd_wr_ne _ _ _ _ (by omega)]
    rw [rd_wr_eq _ _ _ (by norm_num) (by simp only [size_wr, hA]; norm_num)]
    omega
  · rw [rd_wr_ne _ _ _ _ (by omega)]
    rw [rd_wr]
    rw [if_pos (by simp only [size_wr, hA]; omega)]
    omega
  · rw [rd_wr_ne _ _ _ _ (by omega), rd_wr_ne _ _ _ _ (by omega),
      rd_wr_ne _ _ _ _ (by omega)]
    rw [rd_wr]
    rw [if_pos (by simp only [size_wr, hA]; omega)]
  · rw [rd_wr_ne _ _ _ _ (by omega), rd_wr_ne _ _ _ _ (by omega),
      rd_wr_ne _ _ _ _ (by omega), rd_wr_ne _ _ _ _ (by omega),
      rd_wr_ne _ _ _ _ (by omega), rd_wr_ne _ _ _ _ (by omega),
      rd_wr_ne _ _ _ _ (by omega), rd_wr_ne _ _ _ _ (by omega),
      rd_wr_ne _ _ _ _ (by omega), rd_wr_ne _ _ _ _ (by omega)]
    exact rd_wr_eq _ _ _ (by omega) (by simp only [size_wr, hA]; omega)
  · rw [rd_wr_ne _ _ _ _ (by omega), rd_wr_ne _ _ _ _ (by omega),
      rd_wr_ne _ _ _ _ (by omega), rd_wr_ne _ _ _ _ (by omega),
      rd_wr_ne _ _ _ _ (by omega), rd_wr_ne _ _ _ _ (by omega),
      rd_wr_ne _ _ _ _ (by omega), rd_wr_ne _ _ _ _ (by omega),
      rd_wr_ne _ _ _ _ (by omega)]
    exact rd_wr_eq _ _ _ (by omega) (by simp only [size_wr, hA]; omega)
  · intro j hj1 hj3 hjlt
    rw [rd_wr_ne _ _ _ _ (by omega), rd_wr_ne _ _ _ _ (by omega),
      rd_wr_ne _ _ _ _ (by omega), rd_wr_ne _ _ _ _ (by omega),
      rd_wr_ne _ _ _ _ (by omega), rd_wr_ne _ _ _ _ (by omega),
      rd_wr_ne _ _ _ _ (by omega), rd_wr_ne _ _ _ _ (by omega),
      rd_wr_ne _ _ _ _ (by omega), rd_wr_ne _ _ _ _ (by omega),
      rd_wr_ne _ _ _ _ (by omega), rd_wr_ne _ _ _ _ (by omega),
      rd_wr_ne _ _ _ _ (by omega), rd_wr_ne _ _ _ _ (by omega),
      rd_wr_ne _ _ _ _ (by omega)]

theorem alloc_oom_step (A U : Array Int) (rng : List Nat)
    (hA : A.size = 1024) (h1 : rd A 1 = 0) (h3 : rd A 3 = 1) :
    alloc ⟨A, U, rng⟩ 16 = .ok (0, ⟨A, U, rng⟩) := by
  have hffb : findFreeBlock A 4 = some 1 := by
    unfold findFreeBlock
    simp only [HEADER_OFFSET_IN_QUADS, HEIGHT_OFFSET_IN_QUADS, NEXT_OFFSET_IN_QUADS]
    norm_num [h1]
    refine ⟨1, rfl, by norm_num [h3]⟩
  unfold alloc
  dsimp only
  rw [if_neg (by
    simp only [MIN_FREEABLE_SIZE_IN_BYTES]
    omega)]
  rw [if_neg (by norm_num)]
  rw [show bytesToQuads 16 = 4 from rfl]
  rw [hffb]
  dsimp only
  simp only [HEADER_OFFSET_IN_QUADS]
  rw [if_pos (by norm_num)]

theorem exhaustGo_succ (s : AllocState) (fuel : Nat) :
    exhaustGo s (fuel + 1) = match alloc s 16 with
      | .error _ => none
      | .ok (v, s2) => if v = 0 then some ([], s2)
        else (exhaustGo s2 fuel).map (fun p => (v :: p.1, p.2)) := rfl

theorem exhaustAddrsGo_length (m : Nat) : ∀ k : Nat,
    (exhaustAddrsGo k m).length = m := by
  induction m with
  | zero =>
    intro k
    rfl
  | succ m ih =>
    intro k
    rw [exhaustAddrsGo]
    simp [ih (k + 1)]

theorem exhaustAddrsGo_mem (m : Nat) : ∀ (k : Nat) (a : Int),
    a ∈ exhaustAddrsGo k m →
    ∃ j : Nat, k ≤ j ∧ j < k + m ∧ a = quadsToBytes (68 + 6 * (j : Int)) := by
  induction m with
  | zero =>
    intro k a ha
    simp [exhaustAddrsGo] at ha
  | succ m ih =>
    intro k a ha
    rw [exhaustAddrsGo] at ha
    rcases List.mem_cons.mp ha with hh | ht
    · exact ⟨k, le_refl k, by omega, hh⟩
    · obtain ⟨j, hj1, hj2, hj3⟩ := ih (k + 1) a ht
      exact ⟨j, by omega, by omega, hj3⟩

theorem exhaust_inv (m : Nat) : ∀ (k : Nat) (A U : Array Int) (rng : List Nat),
    k + m = 159 → k ≤ 158 →
    A.size = 1024 → rd A 1 = 1 → rd A 3 = 68 + 6 * (k : Int) →
    rd A (68 + 6 * (k : Int) - 1) = 955 - 6 * (k : Int) →
    rd A (68 + 6 * (k : Int) + 2) = 1 → U.size = 32 →
    (∀ j : Int, 0 ≤ j → j < (k : Int) → rd A (67 + 6 * j) = -4) →
    ∃ sF : AllocState, exhaustGo ⟨A, U, rng⟩ (m + 1) = some (exhaustAddrsGo k m, sF) ∧
      sF.arena.size = 1024 ∧
      (∀ j : Int, 0 ≤ j → j < 158 → rd sF.arena (67 + 6 * j) = -4) ∧
      rd sF.arena 1015 = -7 := by
  induction m with
  | zero =>
    intro k A U rng hkm hk158 hA h1 h3 hS hF2 hU hused
    omega
  | succ m ih =>
    intro k A U rng hkm hk158 hA h1 h3 hS hF2 hU hused
    by_cases hm : m = 0
    · -- last successful allocation: take the whole 7-quad block, then OOM
      subst hm
      have hk : k = 158 := by omega
      subst hk
      have h3' : rd A 3 = 1016 := by
        rw [h3]
        norm_num
      have hS' : rd A (1016 - 1) = 7 := by
        have : (68 + 6 * ((158 : Nat) : Int) - 1) = 1016 - 1 := by norm_num
        rw [← this, hS]
        norm_num
      have hF2' : rd A (1016 + 2) = 1 := by
        have : (68 + 6 * ((158 : Nat) : Int) + 2) = 1016 + 2 := by norm_num
        rw [← this]
        exact hF2
      have halloc := alloc_whole_step A U rng 1016 7 hA h1 h3' hS' hF2'
        (by norm_num) hU (by norm_num) (by norm_num)
      have hAW1 : rd (wr (wr (wr (wr A 3 1) 1 0) (1016 - 1) (-7)) (1016 + 7) (-7)) 1 = 0 := by
        rw [rd_wr_ne _ _ _ _ (by omega), rd_wr_ne _ _ _ _ (by omega)]
        exact rd_wr_eq _ _ _ (by norm_num) (by simp only [size_wr, hA]; norm_num)
      have hAW3 : rd (wr (wr (wr (wr A 3 1) 1 0) (1016 - 1) (-7)) (1016 + 7) (-7)) 3 = 1 := by
        rw [rd_wr_ne _ _ _ _ (by omega), rd_wr_ne _ _ _ _ (by omega),
          rd_wr_ne _ _ _ _ (by omega)]
        exact rd_wr_eq _ _ _ (by norm_num) (by rw [hA]; norm_num)
      have hAWsz : (wr (wr (wr (wr A 3 1) 1 0) (1016 - 1) (-7)) (1016 + 7) (-7)).size = 1024 := by
        simp only [size_wr]
        exact hA
      refine ⟨⟨wr (wr (wr (wr A 3 1) 1 0) (1016 - 1) (-7)) (1016 + 7) (-7), wr U 0 1, rng⟩,
        ?_, hAWsz, ?_, ?_⟩
      · rw [exhaustGo_succ, halloc]
        dsimp only
        rw [if_neg (by norm_num [quadsToBytes])]
        rw [exhaustGo_succ, alloc_oom_step _ _ _ hAWsz hAW1 hAW3]
        dsimp only
        rw [if_pos rfl]
        norm_num [quadsToBytes, exhaustAddrsGo]
      · intro j hj0 hj158
        rw [rd_wr_ne _ _ _ _ (by omega), rd_wr_ne _ _ _ _ (by omega),
          rd_wr_ne _ _ _ _ (by omega), rd_wr_ne _ _ _ _ (by omega)]
        exact hused j hj0 (by norm_num; omega)
      · rw [rd_wr_ne _ _ _ _ (by omega)]
        exact rd_wr_eq _ _ _ (by norm_num) (by simp only [size_wr, hA]; norm_num)
    · -- a split step followed by the remaining allocations
      have hk157 : k ≤ 157 := by omega
      obtain ⟨A2, U2, halloc, hA2sz, hU2sz, h21, h23, h2S, h2F2, h2head, h2foot, h2pres⟩ :=
        alloc_split_step A U rng (68 + 6 * (k : Int)) (955 - 6 * (k : Int)) hA h1 h3 hS hF2
          (by omega) hU (by ring) (by omega)
      have h3n : rd A2 3 = 68 + 6 * ((k + 1 : Nat) : Int) := by
        rw [h23]
        push_cast
        ring
      have hSn : rd A2 (68 + 6 * ((k + 1 : Nat) : Int) - 1) = 955 - 6 * ((k + 1 : Nat) : Int) := by
        rw [show (68 + 6 * ((k + 1 : Nat) : Int) - 1) = 68 + 6 * (k : Int) + 5 by push_cast; ring]
        rw [h2S]
        push_cast
        ring
      have hF2n : rd A2 (68 + 6 * ((k + 1 : Nat) : Int) + 2) = 1 := by
        rw [show (68 + 6 * ((k + 1 : Nat) : Int) + 2) = 68 + 6 * (k : Int) + 8 by push_cast; ring]
        exact h2F2
      have husedn : ∀ j : Int, 0 ≤ j → j < ((k + 1 : Nat) : Int) → rd A2 (67 + 6 * j) = -4 := by
        intro j hj0 hjk
        by_cases hjk2 : j < (k : Int)
        · rw [h2pres (67 + 6 * j) (by omega) (by omega) (by omega)]
          exact hused j hj0 hjk2
        · have hje : j = (k : Int) := by
            push_cast at hjk
            omega
          subst hje
          rw [show (67 + 6 * (k : Int)) = 68 + 6 * (k : Int) - 1 by ring]
          exact h2head
      obtain ⟨sF, hrun, hsF1, hsF2, hsF3⟩ :=
        ih (k + 1) A2 U2 rng.tail (by omega) (by omega) hA2sz h21 h3n hSn hF2n hU2sz husedn
      refine ⟨sF, ?_, hsF1, hsF2, hsF3⟩
      rw [exhaustGo_succ, halloc]
      dsimp only
      rw [if_neg (by simp only [quadsToBytes]; omega)]
      rw [hrun]
      rfl

/-- C8: on a freshly initialized 4096-byte (1024-quad) arena, repeatedly
calling alloc(16) until it returns 0 yields exactly 159 successful nonzero
allocations, for every pseudorandom height stream and every prior content of
the UPDATES scratch, and size_of reports a value within [16, 32] bytes for
every returned address. -/
theorem exhaust_16_returns_159 (rng : List Nat) (U : Array Int)
    (hU : U.size = 32) :
    ∃ (l : List Int) (sF : AllocState),
      exhaustGo ⟨prepare (Array.mkArray 1024 0), U, rng⟩ 160 = some (l, sF) ∧
      l.length = 159 ∧
      ∀ a ∈ l, ∃ v, sizeOfBlock sF a = .ok v ∧ 16 ≤ v ∧ v ≤ 32 := by
  have hA : (prepare (Array.mkArray 1024 0)).size = 1024 := by decide
  have h1 : rd (prepare (Array.mkArray 1024 0)) 1 = 1 := by decide
  have h3 : rd (prepare (Array.mkArray 1024 0)) 3 = 68 + 6 * ((0 : Nat) : Int) := by
    norm_num
    decide
  have hS : rd (prepare (Array.mkArray 1024 0)) (68 + 6 * ((0 : Nat) : Int) - 1) =
      955 - 6 * ((0 : Nat) : Int) := by
    norm_num
    decide
  have hF2 : rd (prepare (Array.mkArray 1024 0)) (68 + 6 * ((0 : Nat) : Int) + 2) = 1 := by
    norm_num
    decide
  obtain ⟨sF, hrun, hsz, hused, hlast⟩ :=
    exhaust_inv 159 0 (prepare (Array.mkArray 1024 0)) U rng (by norm_num) (by norm_num)
      hA h1 h3 hS hF2 hU (by
        intro j hj0 hj
        norm_num at hj
        omega)
  refine ⟨exhaustAddrsGo 0 159, sF, ?_, exhaustAddrsGo_length 159 0, ?_⟩
  · rw [show (160 : Nat) = 159 + 1 from rfl]
    exact hrun
  · intro a ha
    obtain ⟨j, hj0, hj159, hae⟩ := exhaustAddrsGo_mem 159 0 a ha
    subst hae
    have hbq : bytesToQuads (quadsToBytes (68 + 6 * (j : Int))) = 68 + 6 * (j : Int) := by
      simp only [bytesToQuads, quadsToBytes]
      omega
    unfold sizeOfBlock
    rw [if_neg (by
      simp only [FIRST_BLOCK_OFFSET_IN_BYTES, quadsToBytes]
      omega)]
    rw [if_neg (not_not_intro (by
      simp only [quadsToBytes]
      omega))]
    rw [hbq]
    by_cases hj158 : j < 158
    · have hrdj : rd sF.arena (68 + 6 * (j : Int) - 1) = -4 := by
        rw [show (68 + 6 * (j : Int) - 1) = 67 + 6 * (j : Int) by ring]
        exact hused (j : Int) (by omega) (by omega)
      refine ⟨16, ?_, by norm_num, by norm_num⟩
      simp only [readSize, hrdj]
      norm_num [quadsToBytes]
    · have hj' : j = 158 := by omega
      subst hj'
      have hrdj : rd sF.arena (68 + 6 * ((158 : Nat) : Int) - 1) = -7 := by
        rw [show (68 + 6 * ((158 : Nat) : Int) - 1) = 1015 by norm_num]
        exact hlast
      refine ⟨28, ?_, by norm_num, by norm_num⟩
      simp only [readSize, hrdj]
      norm_num [quadsToBytes]

/-- C8 witness: the scratch instantiation of the theorem at the empty stream
and the initial all-header UPDATES array. -/
theorem exhaust_16_returns_159_witness :
    ((Array.mkArray MAX_HEIGHT HEADER_OFFSET_IN_QUADS : Array Int).size = 32) ∧
    ∃ (l : List Int) (sF : AllocState),
      exhaustGo ⟨prepare (Array.mkArray 1024 0),
        Array.mkArray MAX_HEIGHT HEADER_OFFSET_IN_QUADS, []⟩ 160 = some (l, sF) ∧
      l.length = 159 ∧
      ∀ a ∈ l, ∃ v, sizeOfBlock sF a = .ok v ∧ 16 ≤ v ∧ v ≤ 32 :=
  ⟨by decide, exhaust_16_returns_159 [] (Array.mkArray MAX_HEIGHT HEADER_OFFSET_IN_QUADS)
    (by decide)⟩

theorem chainFrom_nil (A : Array Int) (lvl b : Int) (f : Nat)
    (h : chainFrom A lvl b f = some []) : b = HEADER_OFFSET_IN_QUADS := by
  cases f with
  | zero => exact absurd h (by simp [chainFrom])
  | succ f =>
    rw [chainFrom] at h
    by_cases hb : b = HEADER_OFFSET_IN_QUADS
    · exact hb
    · rw [if_neg hb] at h
      rcases hm : chainFrom A lvl (rd A (b + NEXT_OFFSET_IN_QUADS + lvl)) f with _ | l
      · rw [hm] at h
        exact absurd h (by simp)
      · rw [hm] at h
        exact absurd h (by simp)

theorem chainFrom_cons (A : Array Int) (lvl b : Int) (f : Nat) (x : Int) (l : List Int)
    (h : chainFrom A lvl b f = some (x :: l)) :
    b = x ∧ b ≠ HEADER_OFFSET_IN_QUADS ∧
      ∃ f2, f = f2 + 1 ∧
        chainFrom A lvl (rd A (b + NEXT_OFFSET_IN_QUADS + lvl)) f2 = some l := by
  cases f with
  | zero => exact absurd h (by simp [chainFrom])
  | succ f =>
    rw [chainFrom] at h
    by_cases hb : b = HEADER_OFFSET_IN_QUADS
    · rw [if_pos hb] at h
      exact absurd h (by simp)
    · rw [if_neg hb] at h
      rcases hm : chainFrom A lvl (rd A (b + NEXT_OFFSET_IN_QUADS + lvl)) f with _ | l2
      · rw [hm] at h
        exact absurd h (by simp)
      · rw [hm] at h
        simp only [Option.some.injEq, List.cons.injEq] at h
        exact ⟨h.1, hb, f, rfl, by rw [hm, h.2]⟩

/-- Decomposition: each member of a chain has a suffix chain of its own. -/
theorem chainFrom_suffix (A : Array Int) (lvl : Int) :
    ∀ (ch : List Int) (b : Int) (f : Nat), chainFrom A lvl b f = some ch →
    ∀ node ∈ ch, ∃ (f2 : Nat) (l : List Int),
      chainFrom A lvl (rd A (node + NEXT_OFFSET_IN_QUADS + lvl)) f2 = some l ∧
      l.Sublist ch ∧ l.length < ch.length := by
  intro ch
  induction ch with
  | nil =>
    intro b f _ node hnode
    exact absurd hnode (by simp)
  | cons x l ih =>
    intro b f h node hnode
    obtain ⟨hbx, hb1, f2, hf, htail⟩ := chainFrom_cons A lvl b f x l h
    rcases List.mem_cons.mp hnode with he | hm
    · subst he
      rw [hbx] at htail
      refine ⟨f2, l, htail, List.sublist_cons_self node l, ?_⟩
      simp only [List.length_cons]
      omega
    · obtain ⟨f3, l2, hc, hsub, hlen⟩ := ih _ f2 htail node hm
      refine ⟨f3, l2, hc, ?_, ?_⟩
      · exact List.Sublist.trans hsub (List.sublist_cons_self x l)
      · simp only [List.length_cons]
        omega

theorem chainFrom_header (A : Array Int) (lvl : Int) (f : Nat) (l : List Int)
    (h : chainFrom A lvl HEADER_OFFSET_IN_QUADS f = some l) : l = [] := by
  cases f with
  | zero => exact absurd h (by simp [chainFrom])
  | succ f =>
    rw [chainFrom, if_pos rfl] at h
    simpa using h.symm

theorem ffWalk_run (A : Array Int) (min lvl : Int) :
    ∀ (l : List Int) (node : Int) (fuel f0 : Nat),
    chainFrom A lvl (rd A (node + NEXT_OFFSET_IN_QUADS + lvl)) f0 = some l →
    l.length < fuel →
    ∃ (node2 : Int) (f1 : Nat) (l1 : List Int),
      ffWalk A min lvl node fuel = some node2 ∧
      (node2 = node ∨ (node2 ∈ l ∧ rd A (node2 - 1) < min)) ∧
      chainFrom A lvl (rd A (node2 + NEXT_OFFSET_IN_QUADS + lvl)) f1 = some l1 ∧
      l1.Sublist l ∧
      (rd A (node2 + NEXT_OFFSET_IN_QUADS + lvl) = HEADER_OFFSET_IN_QUADS ∨
        ¬ rd A (rd A (node2 + NEXT_OFFSET_IN_QUADS + lvl) - 1) < min) := by
  intro l
  induction l with
  | nil =>
    intro node fuel f0 hch hfuel
    cases fuel with
    | zero => omega
    | succ fuel =>
      have hnext : rd A (node + NEXT_OFFSET_IN_QUADS + lvl) = HEADER_OFFSET_IN_QUADS :=
        chainFrom_nil A lvl _ f0 hch
      refine ⟨node, f0, [], ?_, Or.inl rfl, hch, List.Sublist.refl [], Or.inl hnext⟩
      rw [ffWalk]
      rw [if_neg (by
        intro hcon
        exact hcon.1 hnext)]
  | cons x l ih =>
    intro node fuel f0 hch hfuel
    cases fuel with
    | zero => omega
    | succ fuel =>
      obtain ⟨hx, hx1, f2, hf0, htail⟩ := chainFrom_cons A lvl _ f0 x l hch
      by_cases hless : rd A (x - 1) < min
      · have hcond : rd A (node + NEXT_OFFSET_IN_QUADS + lvl) ≠ HEADER_OFFSET_IN_QUADS ∧
            rd A (rd A (node + NEXT_OFFSET_IN_QUADS + lvl) - 1) < min := by
          constructor
          · exact hx1
          · rw [hx]
            exact hless
        obtain ⟨node2, f1, l1, hwalk, hmem, hc1, hsub, hstop⟩ :=
          ih x fuel f2 (by rw [← hx]; exact htail) (by
            simp only [List.length_cons] at hfuel
            omega)
        refine ⟨node2, f1, l1, ?_, ?_, hc1, hsub.trans (List.sublist_cons_self x l), hstop⟩
        · rw [ffWalk, if_pos hcond, hx]
          exact hwalk
        · rcases hmem with he | hm
          · exact Or.inr ⟨by rw [he]; exact List.mem_cons_self x l, by rw [he]; exact hless⟩
          · exact Or.inr ⟨List.mem_cons_of_mem x hm.1, hm.2⟩
      · refine ⟨node, f0, x :: l, ?_, Or.inl rfl, hch, List.Sublist.refl _, ?_⟩
        · rw [ffWalk]
          rw [if_neg (by
            intro hcon
            rw [hx] at hcon
            exact hless hcon.2)]
        · right
          rw [hx]
          exact hless

theorem chain_sorted_bound (A : Array Int) (lvl : Int) :
    ∀ (ch : List Int) (b : Int) (f : Nat),
    chainFrom A lvl b f = some ch →
    List.Chain' (fun x y => rd A (x - 1) ≤ rd A (y - 1)) ch →
    ∀ node ∈ ch, rd A (node + NEXT_OFFSET_IN_QUADS + lvl) = HEADER_OFFSET_IN_QUADS →
    ∀ x ∈ ch, rd A (x - 1) ≤ rd A (node - 1) := by
  intro ch
  induction ch with
  | nil =>
    intro b f _ _ node hnode
    exact absurd hnode (by simp)
  | cons y l ih =>
    intro b f hc hsorted node hnode hlast x hx
    obtain ⟨hby, hb1, f2, hf, htail⟩ := chainFrom_cons A lvl b f y l hc
    rcases List.mem_cons.mp hnode with he | hm
    · subst he
      have hlnil : l = [] := by
        rw [hby, hlast] at htail
        exact chainFrom_header A lvl f2 l htail
      subst hlnil
      have : x = node := by simpa using hx
      rw [this]
    · rcases List.mem_cons.mp hx with hxe | hxm
      · subst hxe
        obtain ⟨z, l2, rfl⟩ : ∃ z l2, l = z :: l2 := by
          cases l with
          | nil => exact absurd hm (by simp)
          | cons z l2 => exact ⟨z, l2, rfl⟩
        have hyz : rd A (x - 1) ≤ rd A (z - 1) :=
          (List.chain'_cons.mp hsorted).1
        have hzn : rd A (z - 1) ≤ rd A (node - 1) := by
          rw [hby] at htail
          exact ih _ f2 htail hsorted.tail node hm hlast z (List.mem_cons_self z l2)
        exact le_trans hyz hzn
      · rw [hby] at htail
        exact ih _ f2 htail hsorted.tail node hm hlast x hxm

theorem ffLevels_run (A : Array Int) (min : Int) (c : List Int)
    (hclen : c.length ≤ A.size)
    (hchains : ∀ lvl : Nat, lvl < (rd A 1).toNat →
      ∃ ch, levelChain A (lvl : Int) = some ch ∧ ch.Sublist c)
    (hstep : ∀ lvl : Nat, lvl + 1 < (rd A 1).toNat → ∀ ch1 ch2,
      levelChain A ((lvl + 1 : Nat) : Int) = some ch1 →
      levelChain A ((lvl : Nat) : Int) = some ch2 → ch1.Sublist ch2) :
    ∀ (h : Nat) (node : Int), h ≤ (rd A 1).toNat →
    (node = HEADER_OFFSET_IN_QUADS ∨ (node ∈ c ∧ rd A (node - 1) < min)) →
    (0 < h → (node = HEADER_OFFSET_IN_QUADS ∨
      ∃ ch, levelChain A ((h - 1 : Nat) : Int) = some ch ∧ node ∈ ch ∧ ch.Sublist c)) →
    (h = 0 → ZeroPost A min c node) →
    ∃ node2, ffLevels A min h node = some node2 ∧
      (node2 = HEADER_OFFSET_IN_QUADS ∨ (node2 ∈ c ∧ rd A (node2 - 1) < min)) ∧
      ZeroPost A min c node2 := by
  intro h
  induction h with
  | zero =>
    intro node _ hdesc _ hzp
    exact ⟨node, rfl, hdesc, hzp rfl⟩
  | succ h ih =>
    intro node hh hdesc hmem _
    have hlvl : h < (rd A 1).toNat := by omega
    obtain ⟨ch, hch, hchsub⟩ := hchains h hlvl
    have hmemh : node = HEADER_OFFSET_IN_QUADS ∨ node ∈ ch := by
      rcases hmem (by omega) with h1 | ⟨ch2, hch2, hnode2, _⟩
      · exact Or.inl h1
      · have hch2e : levelChain A ((h : Nat) : Int) = some ch2 := by
          rw [show (h + 1 - 1 : Nat) = h from rfl] at hch2
          exact hch2
        have he : ch2 = ch := by
          rw [hch2e] at hch
          simpa using hch
        exact Or.inr (he ▸ hnode2)
    have hsuffix : ∃ (f0 : Nat) (l : List Int),
        chainFrom A ((h : Nat) : Int)
          (rd A (node + NEXT_OFFSET_IN_QUADS + ((h : Nat) : Int))) f0 = some l ∧
        l.Sublist ch := by
      rcases hmemh with h1 | hm
      · refine ⟨A.size + 1, ch, ?_, List.Sublist.refl ch⟩
        rw [h1]
        exact hch
      · obtain ⟨f2, l, hcl, hsub, _⟩ :=
          chainFrom_suffix A ((h : Nat) : Int) ch _ (A.size + 1) hch node hm
        exact ⟨f2, l, hcl, hsub⟩
    obtain ⟨f0, l, hcl, hlsub⟩ := hsuffix
    have hlc : l.Sublist c := hlsub.trans hchsub
    obtain ⟨node2, f1, l1, hwalk, hmem2, hc1, hsub1, hstop⟩ :=
      ffWalk_run A min ((h : Nat) : Int) l node (A.size + 1) f0 hcl
        (by
          have := hlc.length_le
          omega)
    have hdesc2 : node2 = HEADER_OFFSET_IN_QUADS ∨
        (node2 ∈ c ∧ rd A (node2 - 1) < min) := by
      rcases hmem2 with he | hm
      · rw [he]
        exact hdesc
      · exact Or.inr ⟨hlc.subset hm.1, hm.2⟩
    have hmemh2 : node2 = HEADER_OFFSET_IN_QUADS ∨ node2 ∈ ch := by
      rcases hmem2 with he | hm
      · rw [he]
        exact hmemh
      · exact Or.inr (hlsub.subset hm.1)
    have hmem3 : 0 < h → (node2 = HEADER_OFFSET_IN_QUADS ∨
        ∃ ch3, levelChain A ((h - 1 : Nat) : Int) = some ch3 ∧ node2 ∈ ch3 ∧
          ch3.Sublist c) := by
      intro hpos
      rcases hmemh2 with h1 | hm
      · exact Or.inl h1
      · obtain ⟨chlow, hchlow, hchlowsub⟩ := hchains (h - 1) (by omega)
        have hsubstep : ch.Sublist chlow := by
          apply hstep (h - 1) (by omega) ch chlow _ hchlow
          have hcast : ((h - 1 + 1 : Nat) : Int) = ((h : Nat) : Int) := by
            congr 1
            omega
          rw [hcast]
          exact hch
        exact Or.inr ⟨chlow, hchlow, hsubstep.subset hm, hchlowsub⟩
    have hzp2 : h = 0 → ZeroPost A min c node2 := by
      intro hh0
      subst hh0
      exact ⟨f1, l1, hc1, hsub1.trans hlc, hstop⟩
    obtain ⟨nodeF, hlev, hdescF, hzpF⟩ := ih node2 (by omega) hdesc2 hmem3 hzp2
    refine ⟨nodeF, ?_, hdescF, hzpF⟩
    rw [ffLevels, hwalk]
    exact hlev

theorem findFreeBlock_spec (A : Array Int) (c : List Int) (min : Int)
    (inv : FreelistInv A c) :
    ∃ r, findFreeBlock A min = some r ∧
      ((r = HEADER_OFFSET_IN_QUADS ∧ ∀ b ∈ c, rd A (b - 1) < min) ∨
       (r ∈ c ∧ ¬ rd A (r - 1) < min)) := by
  have hchain0 : chainFrom A 0
      (rd A (HEADER_OFFSET_IN_QUADS + NEXT_OFFSET_IN_QUADS + 0)) (A.size + 1) = some c :=
    inv.chain_zero
  by_cases hLH : (rd A 1).toNat = 0
  · have hc0 : c = [] := inv.zero_empty hLH
    subst hc0
    have hstart : rd A (HEADER_OFFSET_IN_QUADS + NEXT_OFFSET_IN_QUADS + 0) =
        HEADER_OFFSET_IN_QUADS :=
      chainFrom_nil A 0 _ (A.size + 1) hchain0
    refine ⟨HEADER_OFFSET_IN_QUADS, ?_, Or.inl ⟨rfl, by simp⟩⟩
    unfold findFreeBlock
    simp only [HEADER_OFFSET_IN_QUADS, HEIGHT_OFFSET_IN_QUADS, NEXT_OFFSET_IN_QUADS,
      add_zero] at hstart ⊢
    rw [hLH]
    rw [show ffLevels A min 0 1 = some 1 from rfl]
    simp only [Option.map_some']
    rw [hstart]
  · obtain ⟨node2, hlev, hdesc2, hzp⟩ :=
      ffLevels_run A min c inv.chain_len inv.chains inv.chain_step
        (rd A 1).toNat HEADER_OFFSET_IN_QUADS (le_refl _) (Or.inl rfl)
        (fun _ => Or.inl rfl) (fun h0 => absurd h0 hLH)
    simp only [ZeroPost, Nat.cast_zero, add_zero] at hzp
    obtain ⟨f1, l1, hcl1, hsubl1, hstop⟩ := hzp
    refine ⟨rd A (node2 + NEXT_OFFSET_IN_QUADS), ?_, ?_⟩
    · unfold findFreeBlock
      simp only [HEADER_OFFSET_IN_QUADS, HEIGHT_OFFSET_IN_QUADS, NEXT_OFFSET_IN_QUADS,
        add_zero] at hlev ⊢
      rw [hlev]
      simp only [Option.map_some']
    · by_cases hr : rd A (node2 + NEXT_OFFSET_IN_QUADS) = HEADER_OFFSET_IN_QUADS
      · left
        refine ⟨hr, ?_⟩
        rcases hdesc2 with he | ⟨hmem, hsize⟩
        · -- the descent never left the header, whose level-0 link closes the
          -- chain, so the freelist is empty
          intro b hb
          exfalso
          cases c with
          | nil => simp at hb
          | cons x l =>
            obtain ⟨hx, hx1, _⟩ := chainFrom_cons A 0 _ (A.size + 1) x l hchain0
            apply hx1
            rw [show HEADER_OFFSET_IN_QUADS + NEXT_OFFSET_IN_QUADS + 0 =
              HEADER_OFFSET_IN_QUADS + NEXT_OFFSET_IN_QUADS by ring]
            rw [he] at hr
            exact hr
        · intro b hb
          have hbound := chain_sorted_bound A 0 c _ (A.size + 1) hchain0 inv.sorted
            node2 hmem (by
              rw [show node2 + NEXT_OFFSET_IN_QUADS + 0 = node2 + NEXT_OFFSET_IN_QUADS
                by ring]
              exact hr) b hb
          omega
      · right
        have hstop2 : ¬ rd A (rd A (node2 + NEXT_OFFSET_IN_QUADS) - 1) < min := by
          rcases hstop with h1 | h2
          · exact absurd h1 hr
          · exact h2
        refine ⟨?_, hstop2⟩
        cases l1 with
        | nil =>
          exact absurd (chainFrom_nil A 0 _ f1 hcl1) hr
        | cons x l =>
          obtain ⟨hx, _, _⟩ := chainFrom_cons A 0 _ f1 x l hcl1
          rw [hx]
          exact hsubl1.subset (List.mem_cons_self x l)

/-- C5: For every call alloc(n) with a valid argument n, on an arena whose
freelist satisfies the skip-list invariants with level-0 chain c, the result
is either 0 — returned without raising any error, exactly when no free block
of size at least bytesToQuads n exists — or a byte offset of at least
FIRST_BLOCK_OFFSET_IN_BYTES. -/
theorem alloc_zero_iff_no_fit (s : AllocState) (n : Int) (c : List Int)
    (inv : FreelistInv s.arena c)
    (hn1 : MIN_FREEABLE_SIZE_IN_BYTES ≤ n) (hn2 : n ≤ 4 * (s.arena.size : Int))
    (hn4 : (4 : Int) ∣ n) :
    ((∀ b ∈ c, readSize s.arena b < bytesToQuads n) → alloc s n = .ok (0, s)) ∧
    (∀ r s2, alloc s n = .ok (r, s2) →
      ((r = 0 ↔ ∀ b ∈ c, readSize s.arena b < bytesToQuads n) ∧
       (r ≠ 0 → FIRST_BLOCK_OFFSET_IN_BYTES ≤ r))) := by
  obtain ⟨r0, hff, hcase⟩ := findFreeBlock_spec s.arena c (bytesToQuads n) inv
  have hsz : ∀ b ∈ c, readSize s.arena b = rd s.arena (b - 1) := by
    intro b hb
    exact abs_of_nonneg (le_of_lt (inv.pos b hb))
  rcases hcase with ⟨hr1, hnofit⟩ | ⟨hmem, hfit⟩
  · -- the search came back to the header: out of memory, returned as .ok 0
    have heq : alloc s n = .ok (0, s) := by
      unfold alloc
      dsimp only
      rw [if_neg (by
        simp only [MIN_FREEABLE_SIZE_IN_BYTES] at hn1 ⊢
        omega)]
      rw [if_neg (not_not_intro hn4)]
      rw [hff]
      dsimp only
      rw [if_pos (le_of_eq hr1)]
    refine ⟨fun _ => heq, ?_⟩
    intro r s2 hok
    rw [heq] at hok
    simp only [Except.ok.injEq, Prod.mk.injEq] at hok
    obtain ⟨hr0, _⟩ := hok
    subst hr0
    refine ⟨⟨fun _ => ?_, fun _ => rfl⟩, fun hne => absurd rfl hne⟩
    intro b hb
    rw [hsz b hb]
    exact hnofit b hb
  · -- a fitting block r0 was found: the result is quadsToBytes r0 ≥ 272
    have hB : FIRST_BLOCK_OFFSET_IN_QUADS ≤ r0 := inv.mem_lb r0 hmem
    simp only [FIRST_BLOCK_OFFSET_IN_QUADS] at hB
    have hnofit2 : ¬ (∀ b ∈ c, readSize s.arena b < bytesToQuads n) := by
      intro hno
      apply hfit
      rw [← hsz r0 hmem]
      exact hno r0 hmem
    refine ⟨fun hno => absurd hno hnofit2, ?_⟩
    intro r s2 hok
    unfold alloc at hok
    dsimp only at hok
    rw [if_neg (by
      simp only [MIN_FREEABLE_SIZE_IN_BYTES] at hn1 ⊢
      omega)] at hok
    rw [if_neg (not_not_intro hn4)] at hok
    rw [hff] at hok
    dsimp only at hok
    rw [if_neg (by simp only [HEADER_OFFSET_IN_QUADS]; omega)] at hok
    have hconc : r = quadsToBytes r0 →
        ((r = 0 ↔ ∀ b ∈ c, readSize s.arena b < bytesToQuads n) ∧
         (r ≠ 0 → FIRST_BLOCK_OFFSET_IN_BYTES ≤ r)) := by
      intro hr
      have h4 : r = 4 * r0 := by
        rw [hr]
        simp only [quadsToBytes]
        ring
      refine ⟨⟨fun h0 => absurd h0 (by omega), fun hno => absurd hno hnofit2⟩, ?_⟩
      intro _
      simp only [FIRST_BLOCK_OFFSET_IN_BYTES]
      omega
    split at hok
    · split at hok
      · exact absurd hok (by simp)
      · simp only [Except.ok.injEq, Prod.mk.injEq] at hok
        exact hconc hok.1.symm
    · split at hok
      · exact absurd hok (by simp)
      · simp only [Except.ok.injEq, Prod.mk.injEq] at hok
        exact hconc hok.1.symm

theorem alloc_zero_iff_no_fit_witness :
    ((∀ b ∈ [(68 : Int)], readSize (initState 80 []).arena b < bytesToQuads 16) →
        alloc (initState 80 []) 16 = .ok (0, initState 80 [])) ∧
    (∀ r s2, alloc (initState 80 []) 16 = .ok (r, s2) →
      ((r = 0 ↔ ∀ b ∈ [(68 : Int)], readSize (initState 80 []).arena b < bytesToQuads 16) ∧
       (r ≠ 0 → FIRST_BLOCK_OFFSET_IN_BYTES ≤ r))) :=
  alloc_zero_iff_no_fit (initState 80 []) 16 [68]
    ⟨by decide, by decide, by decide,
     fun lvl hl => by
       have h1 : (rd (initState 80 []).arena 1).toNat = 1 := by decide
       have h0 : lvl = 0 := by omega
       subst h0
       exact ⟨[68], by decide, List.Sublist.refl _⟩,
     fun lvl hl => by
       have h1 : (rd (initState 80 []).arena 1).toNat = 1 := by decide
       omega,
     by decide, by decide, by decide, List.chain'_singleton 68⟩
    (by decide) (by decide) (by decide)




/-! ## Write-locality lemmas for the insertion path (used for C1) -/

theorem size_unlinkGo (block : Int) :
    ∀ (n : Nat) (h : Int) (A U : Array Int), (unlinkGo block n h A U).size = A.size := by
  intro n
  induction n with
  | zero => intro h A U; rfl
  | succ n ih =>
    intro h A U
    unfold unlinkGo
    dsimp only
    split
    · rfl
    · rw [ih]
      exact size_wr _ _ _

theorem size_dropHeight :
    ∀ (n : Nat) (lh : Int) (A : Array Int), (dropHeight n lh A).size = A.size := by
  intro n
  induction n with
  | zero => intro lh A; rfl
  | succ n ih =>
    intro lh A
    unfold dropHeight
    split
    · rw [ih]
      exact size_wr _ _ _
    · rfl

theorem size_insLinks (block : Int) :
    ∀ (n : Nat) (h : Int) (A U : Array Int), (insLinks block n h A U).1.size = A.size := by
  intro n
  induction n with
  | zero => intro h A U; rfl
  | succ n ih =>
    intro h A U
    unfold insLinks
    dsimp only
    rw [ih]
    rw [size_wr, size_wr]

theorem size_generateHeight (A U : Array Int) (block blockSize : Int) (r : Nat) :
    (generateHeight A U block blockSize r).2.1.size = A.size := by
  unfold generateHeight
  dsimp only
  split <;> split <;> dsimp only <;> simp only [size_wr]

theorem rhGo_le : ∀ (fuel r h : Nat), h ≤ MAX_HEIGHT → rhGo fuel r h ≤ MAX_HEIGHT := by
  intro fuel
  induction fuel with
  | zero => intro r h hh; exact hh
  | succ fuel ih =>
    intro r h hh
    unfold rhGo
    split
    · rename_i hc
      exact ih (r / 2) (h + 1) (by omega)
    · exact hh

theorem generateHeight_le (A U : Array Int) (block blockSize : Int) (r : Nat) :
    (generateHeight A U block blockSize r).1 ≤ 32 := by
  have hrh : (randomHeight r : Int) ≤ 32 := by
    have := rhGo_le MAX_HEIGHT r 1 (by norm_num [MAX_HEIGHT])
    unfold randomHeight
    simp only [MAX_HEIGHT] at this ⊢
    omega
  unfold generateHeight
  dsimp only
  split <;> split <;> dsimp only <;> omega

theorem generateHeight_updates (A U : Array Int) (block blockSize : Int) (r : Nat) (i : Int) :
    rd (generateHeight A U block blockSize r).2.2 i = HEADER_OFFSET_IN_QUADS ∨
    rd (generateHeight A U block blockSize r).2.2 i = rd U i := by
  unfold generateHeight
  dsimp only
  split <;> split <;> dsimp only
  · rw [rd_wr]
    split
    · exact Or.inl rfl
    · exact Or.inr rfl
  · exact Or.inr rfl
  · rw [rd_wr]
    split
    · exact Or.inl rfl
    · exact Or.inr rfl
  · exact Or.inr rfl

theorem generateHeight_rd (A U : Array Int) (block blockSize : Int) (r : Nat) (j : Int)
    (hj1 : j ≠ HEADER_OFFSET_IN_QUADS + HEIGHT_OFFSET_IN_QUADS)
    (hjg : j ≠ HEADER_OFFSET_IN_QUADS + NEXT_OFFSET_IN_QUADS +
      (rd A (HEADER_OFFSET_IN_QUADS + HEIGHT_OFFSET_IN_QUADS) + 1 - 1))
    (hjb : j ≠ block + HEIGHT_OFFSET_IN_QUADS) :
    rd (generateHeight A U block blockSize r).2.1 j = rd A j := by
  unfold generateHeight
  dsimp only
  split <;> split <;> dsimp only
  · rw [rd_wr_ne _ _ _ _ (fun he => hjb he.symm),
      rd_wr_ne _ _ _ _ (fun he => hjg he.symm),
      rd_wr_ne _ _ _ _ (fun he => hj1 he.symm)]
  · rw [rd_wr_ne _ _ _ _ (fun he => hjb he.symm)]
  · rw [rd_wr_ne _ _ _ _ (fun he => hjb he.symm),
      rd_wr_ne _ _ _ _ (fun he => hjg he.symm),
      rd_wr_ne _ _ _ _ (fun he => hj1 he.symm)]
  · rw [rd_wr_ne _ _ _ _ (fun he => hjb he.symm)]

/-- The link phase of insert leaves every cell alone that is neither a link
slot of the inserted block nor a link slot of one of the recorded
predecessors. -/
theorem insLinks_rd (block j : Int) :
    ∀ (n : Nat) (h : Int) (A U : Array Int),
    1 ≤ h →
    (∀ k : Int, h ≤ k → k < h + (n : Int) →
      rd U (k - 1) + NEXT_OFFSET_IN_QUADS + (k - 1) ≠ j ∧
      block + NEXT_OFFSET_IN_QUADS + (k - 1) ≠ j) →
    rd (insLinks block n h A U).1 j = rd A j := by
  intro n
  induction n with
  | zero => intro h A U _ _; rfl
  | succ n ih =>
    intro h A U hh hk
    unfold insLinks
    dsimp only
    rw [ih (h + 1) _ _ (by omega) ?_]
    · rw [rd_wr_ne _ _ _ _ (hk h (le_refl h) (by push_cast; omega)).1]
      rw [rd_wr_ne _ _ _ _ (hk h (le_refl h) (by push_cast; omega)).2]
    · intro k hk1 hk2
      have hne : k - 1 ≠ h - 1 := by omega
      constructor
      · rw [rd_wr_ne _ _ _ _ (fun he => hne he.symm)]
        exact (hk k (by omega) (by push_cast at hk2 ⊢; omega)).1
      · exact (hk k (by omega) (by push_cast at hk2 ⊢; omega)).2

/-- insert leaves every cell alone that is not one of the inserted block's
boundary tags, its height word or link slots, the header height word, the
header link slot touched on list growth, or a link slot of a recorded
predecessor. -/
theorem insert_rd (A U : Array Int) (rng : List Nat) (block blockSize j : Int)
    (hj1 : j ≠ HEADER_OFFSET_IN_QUADS + HEIGHT_OFFSET_IN_QUADS)
    (hjg : j ≠ HEADER_OFFSET_IN_QUADS + NEXT_OFFSET_IN_QUADS +
      (rd A (HEADER_OFFSET_IN_QUADS + HEIGHT_OFFSET_IN_QUADS) + 1 - 1))
    (hjb : j ≠ block + HEIGHT_OFFSET_IN_QUADS)
    (hjt1 : j ≠ block - 1) (hjt2 : j ≠ block + blockSize)
    (hjown : ∀ k : Int, 1 ≤ k → k ≤ 32 → block + NEXT_OFFSET_IN_QUADS + (k - 1) ≠ j)
    (hjhdr : ∀ k : Int, 1 ≤ k → k ≤ 32 →
      HEADER_OFFSET_IN_QUADS + NEXT_OFFSET_IN_QUADS + (k - 1) ≠ j)
    (hjpre : ∀ U2, findPredecessors A U blockSize = some U2 →
      ∀ k : Int, 1 ≤ k → k ≤ 32 →
        rd U2 (k - 1) + NEXT_OFFSET_IN_QUADS + (k - 1) ≠ j) :
    ∀ sz A2 U2 rng2, insert A U rng block blockSize = some (sz, A2, U2, rng2) →
      rd A2 j = rd A j := by
  intro sz A2 U2 rng2 hins
  unfold insert at hins
  cases hfp : findPredecessors A U blockSize with
  | none =>
    rw [hfp] at hins
    exact absurd hins (by simp)
  | some U1 =>
    rw [hfp] at hins
    dsimp only at hins
    simp only [Option.some.injEq, Prod.mk.injEq] at hins
    obtain ⟨-, hA2, -, -⟩ := hins
    rw [← hA2]
    rw [rd_wr_ne _ _ _ _ (fun he => hjt2 he.symm)]
    rw [rd_wr_ne _ _ _ _ (fun he => hjt1 he.symm)]
    have hgh := generateHeight_le A U1 block blockSize (rng.headD 0)
    rw [insLinks_rd block j _ 1 _ _ (le_refl 1) ?_]
    · exact generateHeight_rd A U1 block blockSize (rng.headD 0) j hj1 hjg hjb
    · intro k hk1 hk2
      have hk32 : k ≤ 32 := by
        have : ((generateHeight A U1 block blockSize (rng.headD 0)).1.toNat : Int) ≤ 32 := by
          omega
        omega
      refine ⟨?_, hjown k hk1 hk32⟩
      rcases generateHeight_updates A U1 block blockSize (rng.headD 0) (k - 1) with hu | hu
      · rw [hu]
        exact hjhdr k hk1 hk32
      · rw [hu]
        exact hjpre U1 hfp k hk1 hk32

theorem remove_shape (A U : Array Int) (block blockSize : Int) (A1 U1 : Array Int)
    (h : remove A U block blockSize = some (A1, U1)) :
    ∃ X : Array Int,
      A1 = wr (wr X (block - 1) (-blockSize)) (block + blockSize) (-blockSize) ∧
      X.size = A.size := by
  unfold remove at h
  cases hfp : findPredecessors A U blockSize with
  | none => rw [hfp] at h; exact absurd h (by simp)
  | some Up =>
    rw [hfp] at h
    dsimp only at h
    cases hsc : removeScan A block blockSize (rd A (rd Up 0 + NEXT_OFFSET_IN_QUADS))
        Up (A.size + 1) with
    | none => rw [hsc] at h; exact absurd h (by simp)
    | some p =>
      rw [hsc] at h
      obtain ⟨node, U2⟩ := p
      dsimp only at h
      split at h
      · exact absurd h (by simp)
      · simp only [Option.some.injEq, Prod.mk.injEq] at h
        obtain ⟨hA1, -⟩ := h
        refine ⟨_, hA1.symm, ?_⟩
        rw [size_dropHeight, size_unlinkGo]

theorem insert_shape (A U : Array Int) (rng : List Nat) (block blockSize : Int)
    (sz : Int) (A2 U2 : Array Int) (rng2 : List Nat)
    (h : insert A U rng block blockSize = some (sz, A2, U2, rng2)) :
    sz = blockSize ∧ ∃ P : Array Int, P.size = A.size ∧
      A2 = wr (wr P (block - 1) blockSize) (block + blockSize) blockSize := by
  unfold insert at h
  cases hfp : findPredecessors A U blockSize with
  | none => rw [hfp] at h; exact absurd h (by simp)
  | some U1 =>
    rw [hfp] at h
    dsimp only at h
    simp only [Option.some.injEq, Prod.mk.injEq] at h
    obtain ⟨hsz, hA2, -, -⟩ := h
    refine ⟨hsz.symm, _, ?_, hA2.symm⟩
    rw [size_insLinks, size_generateHeight]

/-- Effect of split on the boundary tags: the original block gets used tags
of size M, the leftover becomes a free block at block+M+2 with payload
S - M - 2, provided the predecessor link slots recorded for the re-insertion
stay clear of the used block's tag words. -/
theorem split_tags (A U : Array Int) (rng : List Nat) (block M S : Int)
    (hB : FIRST_BLOCK_OFFSET_IN_QUADS ≤ block) (hM : 3 ≤ M) (hS5 : M + 5 ≤ S)
    (hbound : block + S < (A.size : Int))
    (hLH : removeLH A U block S ≤ 32)
    (hloc : ∀ i : Nat, i < MAX_HEIGHT →
      rd (splitFP A U block M S) (i : Int) = HEADER_OFFSET_IN_QUADS ∨
      block + M < rd (splitFP A U block M S) (i : Int) ∨
      rd (splitFP A U block M S) (i : Int) + NEXT_OFFSET_IN_QUADS + (i : Int) < block - 1) :
    ∀ Af Uf rf, split A U rng block M S = some (Af, Uf, rf) →
      rd Af (block - 1) = -M ∧ rd Af (block + M) = -M ∧
      rd Af (block + M + 1) = S - M - 2 ∧ rd Af (block + S) = S - M - 2 := by
  intro Af Uf rf hsp
  have hB' : 68 ≤ block := by
    simpa [FIRST_BLOCK_OFFSET_IN_QUADS] using hB
  unfold split at hsp
  cases hrem : remove A U block S with
  | none => rw [hrem] at hsp; exact absurd hsp (by simp)
  | some p =>
    obtain ⟨A1, U1⟩ := p
    rw [hrem] at hsp
    dsimp only at hsp
    rw [Option.map_eq_some'] at hsp
    obtain ⟨q, hins, hq⟩ := hsp
    obtain ⟨sz, Ai, Ui, ri⟩ := q
    dsimp only at hq
    simp only [Prod.mk.injEq] at hq
    obtain ⟨hAf, -, -⟩ := hq
    subst hAf
    have hA1sz : A1.size = A.size := by
      obtain ⟨X, hX, hXs⟩ := remove_shape A U block S A1 U1 hrem
      rw [hX, size_wr, size_wr, hXs]
    have hLH' : rd A1 (HEADER_OFFSET_IN_QUADS + HEIGHT_OFFSET_IN_QUADS) ≤ 32 := by
      have h := hLH
      unfold removeLH at h
      rw [hrem] at h
      simpa using h
    obtain ⟨-, P, hPsz, hAi⟩ := insert_shape _ _ _ _ _ _ _ _ _ hins
    simp only [size_wr] at hPsz
    rw [hA1sz] at hPsz
    have hjpre1 : ∀ (j : Int), block - 1 ≤ j → j ≤ block + M →
        ∀ U2x, findPredecessors
          (wr (wr (wr (wr A1 (block - 1) (-M)) (block + M) (-M))
            (block + M + POINTER_OVERHEAD_IN_QUADS - 1)
            (-(S - (block + M + POINTER_OVERHEAD_IN_QUADS - block))))
            (block + M + POINTER_OVERHEAD_IN_QUADS +
              (S - (block + M + POINTER_OVERHEAD_IN_QUADS - block)))
            (-(S - (block + M + POINTER_OVERHEAD_IN_QUADS - block))))
          U1 (S - (block + M + POINTER_OVERHEAD_IN_QUADS - block)) = some U2x →
        ∀ k : Int, 1 ≤ k → k ≤ 32 →
          rd U2x (k - 1) + NEXT_OFFSET_IN_QUADS + (k - 1) ≠ j := by
      intro j hjlo hjhi U2x hfp2 k hk1 hk32
      have hsfp : splitFP A U block M S = U2x := by
        unfold splitFP
        rw [hrem]
        simp only [Option.getD_some]
        rw [hfp2]
        rfl
      have h3 := hloc (k - 1).toNat (by simp only [MAX_HEIGHT]; omega)
      rw [hsfp] at h3
      rw [Int.toNat_of_nonneg (by omega : (0:Int) ≤ k - 1)] at h3
      simp only [HEADER_OFFSET_IN_QUADS, NEXT_OFFSET_IN_QUADS] at h3 ⊢
      omega
    have hmid : ∀ (j : Int), block - 1 ≤ j → j ≤ block + M →
        rd Ai j = rd (wr (wr (wr (wr A1 (block - 1) (-M)) (block + M) (-M))
          (block + M + POINTER_OVERHEAD_IN_QUADS - 1)
          (-(S - (block + M + POINTER_OVERHEAD_IN_QUADS - block))))
          (block + M + POINTER_OVERHEAD_IN_QUADS +
            (S - (block + M + POINTER_OVERHEAD_IN_QUADS - block)))
          (-(S - (block + M + POINTER_OVERHEAD_IN_QUADS - block)))) j := by
      intro j hjlo hjhi
      refine insert_rd _ _ rng _ _ j
        (by simp only [HEADER_OFFSET_IN_QUADS, HEIGHT_OFFSET_IN_QUADS]; omega)
        ?_
        (by simp only [POINTER_OVERHEAD_IN_QUADS, HEIGHT_OFFSET_IN_QUADS]; omega)
        (by simp only [POINTER_OVERHEAD_IN_QUADS]; omega)
        (by simp only [POINTER_OVERHEAD_IN_QUADS]; omega)
        (by
          intro k hk1 hk32
          simp only [POINTER_OVERHEAD_IN_QUADS, NEXT_OFFSET_IN_QUADS]
          omega)
        (by
          intro k hk1 hk32
          simp only [HEADER_OFFSET_IN_QUADS, NEXT_OFFSET_IN_QUADS]
          omega)
        (hjpre1 j hjlo hjhi)
        _ _ _ _ hins
      intro he
      rw [rd_wr_ne _ _ _ _ (by
        simp only [POINTER_OVERHEAD_IN_QUADS, HEADER_OFFSET_IN_QUADS,
          HEIGHT_OFFSET_IN_QUADS]
        omega)] at he
      rw [rd_wr_ne _ _ _ _ (by
        simp only [POINTER_OVERHEAD_IN_QUADS, HEADER_OFFSET_IN_QUADS,
          HEIGHT_OFFSET_IN_QUADS]
        omega)] at he
      rw [rd_wr_ne _ _ _ _ (by
        simp only [HEADER_OFFSET_IN_QUADS, HEIGHT_OFFSET_IN_QUADS]
        omega)] at he
      rw [rd_wr_ne _ _ _ _ (by
        simp only [HEADER_OFFSET_IN_QUADS, HEIGHT_OFFSET_IN_QUADS]
        omega)] at he
      simp only [HEADER_OFFSET_IN_QUADS, HEIGHT_OFFSET_IN_QUADS,
        NEXT_OFFSET_IN_QUADS] at he hLH'
      omega
    refine ⟨?_, ?_, ?_, ?_⟩
    · rw [hmid (block - 1) (le_refl _) (by omega)]
      rw [rd_wr_ne _ _ _ _ (by simp only [POINTER_OVERHEAD_IN_QUADS]; omega)]
      rw [rd_wr_ne _ _ _ _ (by simp only [POINTER_OVERHEAD_IN_QUADS]; omega)]
      rw [rd_wr_ne _ _ _ _ (by omega)]
      rw [rd_wr_eq _ _ _ (by omega) (by rw [hA1sz]; omega)]
    · rw [hmid (block + M) (by omega) (le_refl _)]
      rw [rd_wr_ne _ _ _ _ (by simp only [POINTER_OVERHEAD_IN_QUADS]; omega)]
      rw [rd_wr_ne _ _ _ _ (by simp only [POINTER_OVERHEAD_IN_QUADS]; omega)]
      rw [rd_wr_eq _ _ _ (by omega) (by rw [size_wr, hA1sz]; omega)]
    · rw [hAi]
      rw [rd_wr]
      rw [if_neg (by
        rintro ⟨h1, -⟩
        simp only [POINTER_OVERHEAD_IN_QUADS] at h1
        omega)]
      rw [rd_wr]
      rw [if_pos ⟨by simp only [POINTER_OVERHEAD_IN_QUADS]; ring,
        by simp only [POINTER_OVERHEAD_IN_QUADS]; omega,
        by simp only [POINTER_OVERHEAD_IN_QUADS]; rw [hPsz]; omega⟩]
      simp only [POINTER_OVERHEAD_IN_QUADS]
      ring
    · rw [hAi]
      rw [rd_wr]
      rw [if_pos ⟨by simp only [POINTER_OVERHEAD_IN_QUADS]; ring,
        by simp only [POINTER_OVERHEAD_IN_QUADS]; omega,
        by simp only [POINTER_OVERHEAD_IN_QUADS]; rw [size_wr, hPsz]; omega⟩]
      simp only [POINTER_OVERHEAD_IN_QUADS]
      ring

/-- C1: For every valid call alloc(n) where the best-fit search finds a free
block B of payload size S (and the re-insertion scratch slots are clear of
the used tags, as the freelist invariants guarantee): the block is split if
and only if S - (M + 2) ≥ MIN_FREEABLE_SIZE_IN_QUADS with M = bytesToQuads n;
on split the original block becomes used with size M (negative tags at B-1
and B+M) and a new free block is created at quad B+M+2 with payload size
S-M-2 (positive head tag at B+M+1, foot tag at B+S); otherwise the whole
block becomes used with size S (negative tags at B-1 and B+S). -/
theorem alloc_split_rule (s : AllocState) (n B S : Int)
    (hn1 : MIN_FREEABLE_SIZE_IN_BYTES ≤ n) (hn2 : n ≤ 4 * (s.arena.size : Int))
    (hn4 : (4 : Int) ∣ n)
    (hff : findFreeBlock s.arena (bytesToQuads n) = some B)
    (hB : FIRST_BLOCK_OFFSET_IN_QUADS ≤ B)
    (hS : rd s.arena (B - 1) = S) (hSpos : 0 < S)
    (hbound : B + S < (s.arena.size : Int))
    (hLH : removeLH s.arena s.updates B S ≤ 32)
    (hloc : ∀ i : Nat, i < MAX_HEIGHT →
      rd (splitFP s.arena s.updates B (bytesToQuads n) S) (i : Int) =
        HEADER_OFFSET_IN_QUADS ∨
      B + bytesToQuads n < rd (splitFP s.arena s.updates B (bytesToQuads n) S) (i : Int) ∨
      rd (splitFP s.arena s.updates B (bytesToQuads n) S) (i : Int) +
        NEXT_OFFSET_IN_QUADS + (i : Int) < B - 1) :
    ∀ r s2, alloc s n = .ok (r, s2) →
      r = quadsToBytes B ∧
      (MIN_FREEABLE_SIZE_IN_QUADS ≤ S - (bytesToQuads n + POINTER_OVERHEAD_IN_QUADS) →
        rd s2.arena (B - 1) = -(bytesToQuads n) ∧
        rd s2.arena (B + bytesToQuads n) = -(bytesToQuads n) ∧
        rd s2.arena (B + bytesToQuads n + 1) = S - bytesToQuads n - 2 ∧
        rd s2.arena (B + S) = S - bytesToQuads n - 2) ∧
      (S - (bytesToQuads n + POINTER_OVERHEAD_IN_QUADS) < MIN_FREEABLE_SIZE_IN_QUADS →
        rd s2.arena (B - 1) = -S ∧ rd s2.arena (B + S) = -S) := by
  intro r s2 hok
  have hB' : 68 ≤ B := by
    simpa [FIRST_BLOCK_OFFSET_IN_QUADS] using hB
  have hrs : readSize s.arena B = S := by
    unfold readSize
    rw [hS]
    exact abs_of_nonneg (by omega)
  have hM3 : 3 ≤ bytesToQuads n := by
    simp only [MIN_FREEABLE_SIZE_IN_BYTES] at hn1
    simp only [bytesToQuads]
    omega
  unfold alloc at hok
  dsimp only at hok
  rw [if_neg (by
    simp only [MIN_FREEABLE_SIZE_IN_BYTES] at hn1 ⊢
    omega)] at hok
  rw [if_neg (not_not_intro hn4)] at hok
  rw [hff] at hok
  dsimp only at hok
  rw [if_neg (by simp only [HEADER_OFFSET_IN_QUADS]; omega)] at hok
  rw [hrs] at hok
  by_cases hcond : MIN_FREEABLE_SIZE_IN_QUADS ≤
      S - (bytesToQuads n + POINTER_OVERHEAD_IN_QUADS)
  · rw [if_pos hcond] at hok
    cases hsp : split s.arena s.updates s.rng B (bytesToQuads n) S with
    | none => rw [hsp] at hok; exact absurd hok (by simp)
    | some t =>
      obtain ⟨Af, Uf, rf⟩ := t
      rw [hsp] at hok
      dsimp only at hok
      simp only [Except.ok.injEq, Prod.mk.injEq] at hok
      obtain ⟨hr, hs2⟩ := hok
      subst hs2
      have tags := split_tags s.arena s.updates s.rng B (bytesToQuads n) S hB hM3
        (by
          simp only [MIN_FREEABLE_SIZE_IN_QUADS, POINTER_OVERHEAD_IN_QUADS] at hcond
          omega)
        hbound hLH hloc Af Uf rf hsp
      exact ⟨hr.symm, fun _ => tags,
        fun hc => absurd hcond (by omega)⟩
  · rw [if_neg hcond] at hok
    cases hrm : remove s.arena s.updates B S with
    | none => rw [hrm] at hok; exact absurd hok (by simp)
    | some p =>
      obtain ⟨A1, U1⟩ := p
      rw [hrm] at hok
      dsimp only at hok
      simp only [Except.ok.injEq, Prod.mk.injEq] at hok
      obtain ⟨hr, hs2⟩ := hok
      subst hs2
      obtain ⟨X, hX, hXs⟩ := remove_shape s.arena s.updates B S A1 U1 hrm
      refine ⟨hr.symm, fun hc => absurd hc (by omega), fun _ => ?_⟩
      dsimp only
      rw [hX]
      constructor
      · rw [rd_wr_ne _ _ _ _ (by omega)]
        rw [rd_wr_eq _ _ _ (by omega) (by rw [hXs]; omega)]
      · rw [rd_wr_eq _ _ _ (by omega) (by rw [size_wr, hXs]; omega)]

theorem alloc_split_rule_witness :
    c1run.1 = quadsToBytes 68 ∧
    (MIN_FREEABLE_SIZE_IN_QUADS ≤ 11 - (bytesToQuads 16 + POINTER_OVERHEAD_IN_QUADS) →
      rd c1run.2.arena (68 - 1) = -(bytesToQuads 16) ∧
      rd c1run.2.arena (68 + bytesToQuads 16) = -(bytesToQuads 16) ∧
      rd c1run.2.arena (68 + bytesToQuads 16 + 1) = 11 - bytesToQuads 16 - 2 ∧
      rd c1run.2.arena (68 + 11) = 11 - bytesToQuads 16 - 2) ∧
    (11 - (bytesToQuads 16 + POINTER_OVERHEAD_IN_QUADS) < MIN_FREEABLE_SIZE_IN_QUADS →
      rd c1run.2.arena (68 - 1) = -11 ∧ rd c1run.2.arena (68 + 11) = -11) :=
  alloc_split_rule (initState 80 []) 16 68 11
    (by decide) (by decide) (by decide) (by decide) (by decide) (by decide)
    (by decide) (by decide) (by decide) (by decide)
    c1run.1 c1run.2 (by rfl)

end Malloc
